import Mathlib

/-!
# Verification of the static-frame typed-block utility layer

A shallow embedding, in Lean 4, of the dtype-resolution and typed-array
utility layer of the `static_frame` library
(`static_frame/core/util.py` and `static_frame/core/container_util.py`),
together with theorems settling the frozen claims about that layer.

Modelling conventions:

* NumPy dtypes are an inductive `Dtype` carrying the kind character and its
  parameter (itemsize in bytes for numeric kinds, character width for string
  kinds, a time unit for datetime64/timedelta64).
* NumPy scalar values stored in arrays are `Val` (Python/NumPy ints, bools
  and strings).  Floating-point *values* are outside the value model (claims
  about them would not be statable); float *dtypes* are fully modelled.
* A 1-D ndarray is `Arr1`: a dtype plus a list of values.  A 2-D ndarray is
  `Arr2`: a dtype plus a list of rows (assumed rectangular).
* Python exceptions are the `PyErr` inductive; fallible Python code is
  embedded as `Except PyErr _`.
* Python's `%` on ints (sign of the divisor) is `Int.fmod`; `//` is
  `Int.fdiv`.
-/

/-- Python exception classes that the embedded code can raise. -/
inductive PyErr
  | typeError
  | overflowError
  | valueError
  | zeroDivisionError
  | stopIteration
  | notImplementedError
  | runtimeError
  | indexError
  deriving DecidableEq, Repr

/-- NumPy datetime64/timedelta64 units, plus the unit-less `generic` form
(`np.datetime64('nat')` and `np.timedelta64(0)` carry the generic unit). -/
inductive TimeUnit
  | Y | M | W | D | h | mi | s | ms | us | ns | ps | fs | atto | generic
  deriving DecidableEq, Repr

/-- Unit fineness rank: larger means finer.  `generic` is handled separately
by the promotion rules and is given the largest rank. -/
def TimeUnit.rank : TimeUnit → Nat
  | .Y => 0 | .M => 1 | .W => 2 | .D => 3 | .h => 4 | .mi => 5 | .s => 6
  | .ms => 7 | .us => 8 | .ns => 9 | .ps => 10 | .fs => 11 | .atto => 12
  | .generic => 13

/-- Month-based (nonlinear) units: years and months have no fixed length as
durations, which is what makes some timedelta64 promotions impossible. -/
def TimeUnit.monthBased : TimeUnit → Bool
  | .Y => true | .M => true | _ => false

/-- The finer of two units (the one with larger rank). -/
def TimeUnit.finer (u v : TimeUnit) : TimeUnit :=
  if v.rank ≤ u.rank then u else v

/-- The `dtype.kind` character codes (`biufcmMOSUV`). -/
inductive NpKind
  | b | i | u | f | c | m | M | O | S | U | V
  deriving DecidableEq, Repr

/-- NumPy dtypes at the granularity the verified code distinguishes them:
kind plus itemsize (bytes) for numeric kinds, character width for string
kinds, time unit for datetime64/timedelta64, raw size for void. -/
inductive Dtype
  | bool
  | int (size : Nat)
  | uint (size : Nat)
  | float (size : Nat)
  | complex (size : Nat)
  | datetime (u : TimeUnit)
  | timedelta (u : TimeUnit)
  | bytes (w : Nat)
  | str (w : Nat)
  | object
  | void (size : Nat)
  deriving DecidableEq, Repr

/-- `dtype.kind`. -/
def Dtype.kind : Dtype → NpKind
  | .bool => .b
  | .int _ => .i
  | .uint _ => .u
  | .float _ => .f
  | .complex _ => .c
  | .datetime _ => .M
  | .timedelta _ => .m
  | .bytes _ => .S
  | .str _ => .U
  | .object => .O
  | .void _ => .V

-- Constants from static_frame.core.util (kind groups).
def DTYPE_STR_KIND : List NpKind := [.U, .S]
def DTYPE_INT_KIND : List NpKind := [.i, .u]
def DTYPE_NAN_KIND : List NpKind := [.f, .c]
def DTYPE_DATETIME_KIND : NpKind := .M
def DTYPE_TIMEDELTA_KIND : NpKind := .m
def DTYPE_OBJECT : Dtype := .object
def DTYPE_BOOL : Dtype := .bool
def DTYPE_INT_DEFAULT : Dtype := .int 8
def DTYPE_FLOAT_DEFAULT : Dtype := .float 8

/-- Smallest float itemsize whose mantissa NumPy accepts for an integer of
the given itemsize when promoting int-kind with float-kind. -/
def floatSizeForIntSize (s : Nat) : Nat :=
  if s ≤ 1 then 2 else if s ≤ 2 then 4 else 8

/-- Model of `np.result_type` applied to two dtypes (for dtype arguments this
coincides with `np.promote_types`).  `.error .typeError` models the
`TypeError` NumPy raises for invalid promotions (void mixed with a different
dtype; timedelta64 units with incompatible nonlinear bases; datetime mixed
with numeric kinds).  Mixed string/numeric promotion (which real NumPy
resolves to a string dtype of a computed width) is not width-modelled and
falls to the error case; `resolve_dtype` below never reaches
`np.result_type` with such a mix, so no theorem depends on it. -/
def np_result_type (d1 d2 : Dtype) : Except PyErr Dtype :=
  if d1 = d2 then .ok d1 else
  match d1, d2 with
  | .object, _ => .ok .object
  | _, .object => .ok .object
  | .str w1, .str w2 => .ok (.str (max w1 w2))
  | .bytes w1, .bytes w2 => .ok (.bytes (max w1 w2))
  | .str w1, .bytes w2 => .ok (.str (max w1 w2))
  | .bytes w2, .str w1 => .ok (.str (max w1 w2))
  | .datetime u1, .datetime u2 =>
      -- datetime64 promotion always succeeds: points in time convert
      -- exactly to any finer unit.
      if u1 = .generic then .ok (.datetime u2)
      else if u2 = .generic then .ok (.datetime u1)
      else .ok (.datetime (u1.finer u2))
  | .timedelta u1, .timedelta u2 =>
      -- timedelta64 promotion fails across the month-based/linear divide:
      -- "Cannot get a common metadata divisor for NumPy datetime metadata".
      if u1 = .generic then .ok (.timedelta u2)
      else if u2 = .generic then .ok (.timedelta u1)
      else if u1.monthBased ≠ u2.monthBased then .error .typeError
      else .ok (.timedelta (u1.finer u2))
  | .bool, .int s => .ok (.int s)
  | .int s, .bool => .ok (.int s)
  | .bool, .uint s => .ok (.uint s)
  | .uint s, .bool => .ok (.uint s)
  | .bool, .float s => .ok (.float s)
  | .float s, .bool => .ok (.float s)
  | .bool, .complex s => .ok (.complex s)
  | .complex s, .bool => .ok (.complex s)
  | .int a, .int b => .ok (.int (max a b))
  | .uint a, .uint b => .ok (.uint (max a b))
  | .int a, .uint b =>
      .ok (if b < a then .int a else if b < 8 then .int (2 * b) else .float 8)
  | .uint b, .int a =>
      .ok (if b < a then .int a else if b < 8 then .int (2 * b) else .float 8)
  | .int a, .float b => .ok (.float (max b (floatSizeForIntSize a)))
  | .float b, .int a => .ok (.float (max b (floatSizeForIntSize a)))
  | .uint a, .float b => .ok (.float (max b (floatSizeForIntSize a)))
  | .float b, .uint a => .ok (.float (max b (floatSizeForIntSize a)))
  | .float a, .float b => .ok (.float (max a b))
  | .complex a, .complex b => .ok (.complex (max a b))
  | .float a, .complex b => .ok (.complex (max b (max 8 (2 * a))))
  | .complex b, .float a => .ok (.complex (max b (max 8 (2 * a))))
  | .int a, .complex b => .ok (.complex (max b (max 8 (2 * floatSizeForIntSize a))))
  | .complex b, .int a => .ok (.complex (max b (max 8 (2 * floatSizeForIntSize a))))
  | .uint a, .complex b => .ok (.complex (max b (max 8 (2 * floatSizeForIntSize a))))
  | .complex b, .uint a => .ok (.complex (max b (max 8 (2 * floatSizeForIntSize a))))
  | _, _ => .error .typeError

/-- `resolve_dtype` (util.py:328): given two dtypes, return a compatible
dtype that can hold both contents without truncation.  Embedded with its
exact branch order; the `try/except TypeError` around the timedelta call to
`np.result_type` becomes a match on the error. -/
def resolve_dtype (dt1 dt2 : Dtype) : Except PyErr Dtype :=
  if dt1 = dt2 then .ok dt1
  else if dt1.kind = NpKind.O ∨ dt2.kind = NpKind.O then .ok DTYPE_OBJECT
  else
    let dt1_is_str := dt1.kind ∈ DTYPE_STR_KIND
    let dt2_is_str := dt2.kind ∈ DTYPE_STR_KIND
    if dt1_is_str ∧ dt2_is_str then np_result_type dt1 dt2
    else
      let dt1_is_dt := dt1.kind = DTYPE_DATETIME_KIND
      let dt2_is_dt := dt2.kind = DTYPE_DATETIME_KIND
      if dt1_is_dt ∧ dt2_is_dt then np_result_type dt1 dt2
      else
        let dt1_is_tdelta := dt1.kind = DTYPE_TIMEDELTA_KIND
        let dt2_is_tdelta := dt2.kind = DTYPE_TIMEDELTA_KIND
        if dt1_is_tdelta ∧ dt2_is_tdelta then
          match np_result_type dt1 dt2 with
          | .ok d => .ok d
          | .error .typeError => .ok DTYPE_OBJECT
          | .error e => .error e
        else
          let dt1_is_bool := dt1 = DTYPE_BOOL
          let dt2_is_bool := dt2 = DTYPE_BOOL
          if dt1_is_str ∨ dt2_is_str ∨ dt1_is_bool ∨ dt2_is_bool
              ∨ dt1_is_dt ∨ dt2_is_dt ∨ dt1_is_tdelta ∨ dt2_is_tdelta then
            .ok DTYPE_OBJECT
          else np_result_type dt1 dt2

/-- The null values `dtype_to_na` can produce.  Datetime64/timedelta64
scalars are `Option Int`: `Option.none` is NaT (not-a-time), `some v` a
valid tick count in the scalar's unit. -/
inductive NaValue
  | int (v : Int)
  | bool (v : Bool)
  | nan
  | none
  | str (s : String)
  | datetime (v : Option Int)
  | timedelta (v : Option Int)
  deriving DecidableEq, Repr

/-- `NAT = np.datetime64('nat')` (util.py:97). -/
def NAT : NaValue := .datetime Option.none

/-- `EMPTY_TIMEDELTA = np.timedelta64(0)` (util.py:99): the source defines
missing for timedelta as an untyped zero, not as NaT. -/
def EMPTY_TIMEDELTA : NaValue := .timedelta (some 0)

/-- Whether a null value is a NumPy not-a-time sentinel (NaT).  Used only to
state the spec's "not-a-time sentinel" wording against the code. -/
def NaValue.isNaT : NaValue → Bool
  | .datetime Option.none => true
  | .timedelta Option.none => true
  | _ => false

/-- `dtype_to_na` (util.py:442): given a dtype, return an appropriate and
compatible null value; raises `NotImplementedError` for unhandled kinds.
(The Python function first coerces non-dtype specifiers with `np.dtype`;
the embedding takes a `Dtype` directly.) -/
def dtype_to_na (dtype : Dtype) : Except PyErr NaValue :=
  let kind := dtype.kind
  if kind ∈ DTYPE_INT_KIND then .ok (.int 0)
  else if kind = NpKind.b then .ok (.bool false)
  else if kind ∈ DTYPE_NAN_KIND then .ok .nan
  else if kind = NpKind.O then .ok .none
  else if kind ∈ DTYPE_STR_KIND then .ok (.str "")
  else if kind = DTYPE_DATETIME_KIND then .ok NAT
  else if kind = DTYPE_TIMEDELTA_KIND then .ok EMPTY_TIMEDELTA
  else .error .notImplementedError

/-- `roll_1d` (util.py:556): specialized 1-D circular roll.  `post[0:shift] =
array[-shift:]; post[shift:] = array[0:-shift]`, with the shift first
normalized by Python `%` (`Int.fmod`) to `[0, size)`.  The length ≤ 1 and
shift 0 paths return a copy, which over lists is the list itself. -/
def roll_1d {α : Type} (array : List α) (shift : Int) : List α :=
  let size := array.length
  if size ≤ 1 then array
  else
    let sh := (Int.fmod shift size).toNat
    if sh = 0 then array
    else array.drop (size - sh) ++ array.take (size - sh)

--------------------------------------------------------------------------
-- Values, 1-D arrays, array construction
--------------------------------------------------------------------------

/-- Scalar values stored in arrays: Python/NumPy integers, booleans and
strings.  Floating-point, tuple and list *values* are outside the value
model (the dtype level still models float/complex fully). -/
inductive Val
  | vInt (n : Int)
  | vBool (b : Bool)
  | vStr (s : String)
  deriving DecidableEq, Repr

/-- Numeric reading of a value, for NumPy's numeric cross-kind `==`. -/
def Val.numVal : Val → Option Int
  | .vInt n => some n
  | .vBool b => some (if b then 1 else 0)
  | .vStr _ => Option.none

/-- NumPy elementwise `==`: numbers and booleans compare numerically,
strings compare to strings; a string never equals a number. -/
def valEq (a b : Val) : Bool :=
  match a, b with
  | .vStr x, .vStr y => x = y
  | .vStr _, _ => false
  | _, .vStr _ => false
  | x, y => x.numVal = y.numVal

/-- Lexicographic `≤` on character lists by code point (the standard string
order, written out so that it evaluates by kernel reduction). -/
def charListLe : List Char → List Char → Bool
  | [], _ => true
  | _ :: _, [] => false
  | a :: as, b :: bs =>
      if a.toNat < b.toNat then true
      else if b.toNat < a.toNat then false
      else charListLe as bs

/-- A total order on values, modelling NumPy's sort over a homogeneous
array (the sorting paths below only ever compare values of one kind). -/
def valLe (a b : Val) : Bool :=
  match a, b with
  | .vStr x, .vStr y => charListLe x.data y.data
  | .vStr _, _ => false
  | _, .vStr _ => true
  | x, y => decide (x.numVal.getD 0 ≤ y.numVal.getD 0)

/-- A 1-D NumPy array: a dtype plus the stored values. -/
structure Arr1 where
  dtype : Dtype
  data : List Val
  deriving DecidableEq, Repr

/-- `EMPTY_ARRAY` (util.py:88): `np.array(())` defaults to float64. -/
def EMPTY_ARRAY : Arr1 := ⟨.float 8, []⟩

/-- Whether a Python int fits the default NumPy int64. -/
def fitsInt64 (n : Int) : Bool :=
  decide (-(2 ^ 63) ≤ n ∧ n < 2 ^ 63)

/-- `np.array(scalar).dtype` for a scalar value. -/
def npScalarDtype : Val → Dtype
  | .vInt n => if fitsInt64 n then .int 8 else .object
  | .vBool _ => .bool
  | .vStr s => .str s.length

/-- Cast a numeric value to a NumPy integer (booleans become 0/1). -/
def castIntVal : Val → Val
  | .vBool b => .vInt (if b then 1 else 0)
  | v => v

def isStrVal : Val → Bool
  | .vStr _ => true
  | _ => false

/-- Width NumPy gives an auto-detected unicode array: the longest string. -/
def maxStrWidth (l : List Val) : Nat :=
  l.foldl (fun m v => match v with | .vStr s => max m s.length | _ => m) 0

/-- Model of `np.array(values)` with `dtype=None` on a nonempty list of
values: all-string data gives a unicode dtype of the longest width,
all-boolean data gives bool, numeric data gives int64 — or an object array
when a Python int exceeds int64 (NumPy falls back to object for oversized
ints).  A string/number mix (which real NumPy renders as strings) is not
reached by the embedded callers, which route such data to an object dtype
first; it is modelled as an object array. -/
def np_array_auto (vals : List Val) : Arr1 :=
  if vals.length = 0 then EMPTY_ARRAY
  else if vals.all isStrVal then ⟨.str (maxStrWidth vals), vals⟩
  else if vals.any isStrVal then ⟨.object, vals⟩
  else if vals.all (fun v => match v with | .vBool _ => true | _ => false) then
    ⟨.bool, vals⟩
  else if vals.any (fun v => match v with | .vInt n => ¬ fitsInt64 n | _ => false) then
    ⟨.object, vals⟩
  else ⟨.int 8, vals.map castIntVal⟩

/-- Model of `np.array(values, dtype=int)`: string contents raise
`ValueError` (numeric-string parsing is not modelled), a Python int outside
int64 raises `OverflowError`, otherwise an int64 array with booleans cast
to 0/1. -/
def np_array_int (vals : List Val) : Except PyErr Arr1 :=
  if vals.any isStrVal then .error .valueError
  else if vals.any (fun v => match v with | .vInt n => ¬ fitsInt64 n | _ => false) then
    .error .overflowError
  else .ok ⟨.int 8, vals.map castIntVal⟩

/-- Model of `np.array(values, dtype=d)` for an explicit target dtype.
Only the object, string, bool and integer targets are value-modelled (the
claims exercise only these); casting to float/complex/datetime targets,
whose values are outside the value model, is mapped to `TypeError`. -/
def np_array_cast (d : Dtype) (vals : List Val) : Except PyErr Arr1 :=
  match d with
  | .object => .ok ⟨.object, vals⟩
  | .str w =>
      .ok ⟨.str w, vals.map (fun v => match v with
        | .vStr s => Val.vStr s
        | .vInt n => .vStr (toString n)
        | .vBool b => .vStr (if b then "True" else "False"))⟩
  | .bytes w =>
      .ok ⟨.bytes w, vals.map (fun v => match v with
        | .vStr s => Val.vStr s
        | .vInt n => .vStr (toString n)
        | .vBool b => .vStr (if b then "True" else "False"))⟩
  | .bool =>
      if vals.any isStrVal then .error .valueError
      else .ok ⟨.bool, vals.map (fun v => match v with
        | .vInt n => Val.vBool (n ≠ 0)
        | v => v)⟩
  | .int s =>
      if vals.any isStrVal then .error .valueError
      else if vals.any (fun v => match v with
          | .vInt n => ¬ (-(2 ^ (8 * s - 1)) ≤ n ∧ n < 2 ^ (8 * s - 1))
          | _ => false) then .error .overflowError
      else .ok ⟨.int s, vals.map castIntVal⟩
  | .uint s =>
      if vals.any isStrVal then .error .valueError
      else if vals.any (fun v => match v with
          | .vInt n => ¬ (0 ≤ n ∧ n < 2 ^ (8 * s))
          | _ => false) then .error .overflowError
      else .ok ⟨.uint s, vals.map castIntVal⟩
  | _ => .error .typeError

/-- Dtype specifiers as accepted by `iterable_to_array_1d`: `None`, a NumPy
dtype, the Python builtin `int`, or the Python builtin `object`. -/
inductive DtypeSpec
  | none
  | dt (d : Dtype)
  | pyInt
  | pyObject
  deriving DecidableEq, Repr

/-- Python `dtype == int`: true for the builtin `int` and for the dtype
`int64` (on 64-bit platforms `np.dtype('int64') == int` holds). -/
def dtypeSpecEqInt : DtypeSpec → Bool
  | .pyInt => true
  | .dt (.int 8) => true
  | _ => false

/-- `dtype in DTYPE_SPECIFIERS_OBJECT` (util.py:194): the object dtype and
the builtin `object` (the `tuple` specifier is outside the model). -/
def isObjectSpecifier : DtypeSpec → Bool
  | .dt .object => true
  | .pyObject => true
  | _ => false

/-- Python `specifier == array.dtype` for the guard in
`iterable_to_array_1d`. -/
def dtypeSpecMatches : DtypeSpec → Dtype → Bool
  | .dt d2, d => d2 = d
  | .pyInt, d => d = .int 8
  | .pyObject, d => d = .object
  | .none, _ => false

/-- The dtype `np.empty(0, dtype=spec)` produces. -/
def specToDtype : DtypeSpec → Dtype
  | .none => .float 8
  | .dt d => d
  | .pyInt => .int 8
  | .pyObject => .object

/-- The iterables `iterable_to_array_1d` distinguishes: an ndarray, a single
string, a list-like sequence, or a dict-like (set/dict) collection.
Generators and dict view objects are outside the model. -/
inductive PyIterable
  | npArr (a : Arr1)
  | pyStr (s : String)
  | pyList (l : List Val)
  | setLike (l : List Val)

def PyIterable.contents : PyIterable → List Val
  | .npArr a => a.data
  | .pyStr s => [.vStr s]
  | .pyList l => l
  | .setLike l => l

def PyIterable.isDictlike : PyIterable → Bool
  | .setLike _ => true
  | _ => false

/-- `is_gen_copy_values` (util.py:682): `(is_gen, copy_values)`.  Of the
modelled iterables only dict-likes need copying; generators (always
copied) are outside the model. -/
def is_gen_copy_values (values : PyIterable) : Bool × Bool :=
  match values with
  | .setLike _ => (false, true)
  | _ => (false, false)

/-- `resolve_type_iter` (util.py:698): scan an iterable to decide whether
NumPy must be forced to an object dtype.  Over the value model the scan
flags are: `has_tuple`/`has_inexact` are constantly false (tuple, list and
float values are outside the model, so the big-int/inexact combination
cannot arise either), and the result is the `object` specifier exactly when
strings and non-strings are mixed. -/
def resolve_type_iter (values : PyIterable) :
    DtypeSpec × Bool × List Val :=
  let vals := values.contents
  if vals.length = 0 then (.none, false, vals)
  else
    let has_str := vals.any isStrVal
    let has_non_str := vals.any (fun v => ¬ isStrVal v)
    let resolved : DtypeSpec := if has_str ∧ has_non_str then .pyObject else .none
    (resolved, false, vals)

/-- `np.array(values, dtype=spec)` for the final constructor call of
`iterable_to_array_1d`. -/
def np_array_with_spec (spec : DtypeSpec) (vals : List Val) :
    Except PyErr Arr1 :=
  match spec with
  | .none => .ok (np_array_auto vals)
  | .pyObject => .ok ⟨.object, vals⟩
  | .pyInt => np_array_int vals
  | .dt d => np_array_cast d vals

/-- Construction tail of `iterable_to_array_1d` (util.py:817-840):
uniqueness flag, then dispatch on `has_tuple`, `dtype == int` (with the
`OverflowError` fallback to an object array), or plain construction. -/
def iterable_to_array_1d_tail (values : PyIterable) (dtype : DtypeSpec)
    (has_tuple : Bool) (vfc : List Val) : Except PyErr (Arr1 × Bool) :=
  let is_unique : Bool := vfc.length = 1 ∨ values.isDictlike
  if has_tuple then
    .ok (⟨.object, vfc⟩, is_unique)
  else if dtypeSpecEqInt dtype then
    match np_array_int vfc with
    | .ok v => .ok (v, is_unique)
    | .error .overflowError => .ok (⟨DTYPE_OBJECT, vfc⟩, is_unique)
    | .error e => .error e
  else
    match np_array_with_spec dtype vfc with
    | .ok v => .ok (v, is_unique)
    | .error e => .error e

/-- `iterable_to_array_1d` (util.py:773): convert an arbitrary iterable to a
1-D array without undesirable coercion, returning the array and a
uniqueness flag.  The Python early returns are flattened into nested
branches. -/
def iterable_to_array_1d (values : PyIterable) (dtype : DtypeSpec) :
    Except PyErr (Arr1 × Bool) :=
  match values with
  | .npArr a =>
      if dtype ≠ DtypeSpec.none ∧ ¬ dtypeSpecMatches dtype a.dtype then
        .error .runtimeError
      else
        .ok (a, a.data.length ≤ 1)
  | .pyStr s =>
      -- a single string becomes an iterable of a single element
      iterable_to_array_1d_tail values dtype false [.vStr s]
  | _ =>
      if dtype = DtypeSpec.none then
        match resolve_type_iter values with
        | (dtypeR, has_tuple, vfc) =>
          if vfc.length = 0 then .ok (EMPTY_ARRAY, true)
          else iterable_to_array_1d_tail values dtypeR has_tuple vfc
      else
        let vfc := values.contents
        if vfc.length = 0 then .ok (⟨specToDtype dtype, []⟩, true)
        else
          iterable_to_array_1d_tail values dtype (isObjectSpecifier dtype) vfc

--------------------------------------------------------------------------
-- 2-D arrays, roll and shift
--------------------------------------------------------------------------

/-- A 2-D NumPy array: a dtype plus a list of rows (assumed rectangular). -/
structure Arr2 where
  dtype : Dtype
  data : List (List Val)
  deriving DecidableEq, Repr

/-- `roll_2d` (util.py:578): 2-D circular roll along an axis; raises
`NotImplementedError` for axes outside {0, 1}.  Axis 0 rolls whole rows —
arithmetic identical to `roll_1d` on the row list; axis 1 rolls within each
row using the column count from the shape. -/
def roll_2d {α : Type} (array : List (List α)) (shift : Int) (axis : Nat) :
    Except PyErr (List (List α)) :=
  if axis = 0 then
    .ok (roll_1d array shift)
  else if axis = 1 then
    let size := (array.headD []).length
    if size ≤ 1 then .ok array
    else
      let sh := (Int.fmod shift size).toNat
      if sh = 0 then .ok array
      else .ok (array.map (fun row => row.drop (size - sh) ++ row.take (size - sh)))
  else .error .notImplementedError

/-- `full_for_fill` (util.py:429) for a 1-D shape: resolve the target dtype
against `np.array(fill_value).dtype` and return a full array of the fill.
(`np.full` casts the fill into the resolved dtype; the resolved dtype holds
the fill without truncation by construction, so values are kept as-is.) -/
def full_for_fill_1d (dtype : Dtype) (n : Nat) (fill_value : Val) :
    Except PyErr Arr1 :=
  match resolve_dtype dtype (npScalarDtype fill_value) with
  | .error e => .error e
  | .ok d => .ok ⟨d, List.replicate n fill_value⟩

/-- `full_for_fill` (util.py:429) for a 2-D shape. -/
def full_for_fill_2d (dtype : Dtype) (rows cols : Nat) (fill_value : Val) :
    Except PyErr Arr2 :=
  match resolve_dtype dtype (npScalarDtype fill_value) with
  | .error e => .error e
  | .ok d => .ok ⟨d, List.replicate rows (List.replicate cols fill_value)⟩

/-- The shift normalization at the top of `array_shift` (util.py:1323-1329):
positive shifts are reduced with Python `%` by the axis length, negative
shifts with `%` by its negation (keeping the result negative).  On a
length-0 axis Python's `%` raises `ZeroDivisionError`. -/
def array_shift_mod (shift : Int) (size_axis : Nat) : Except PyErr Int :=
  if shift > 0 then
    if size_axis = 0 then .error .zeroDivisionError
    else .ok (Int.fmod shift size_axis)
  else if shift < 0 then
    if size_axis = 0 then .error .zeroDivisionError
    else .ok (Int.fmod shift (-(size_axis : Int)))
  else .ok 0

/-- `array_shift` (util.py:1309) on a 1-D array (axis 0).  If `wrap`,
delegate to `roll_1d`; otherwise build a `full_for_fill` result and
overwrite the surviving positions with the displaced originals
(`result[shift:] = array[:-shift]` / `result[:shift] = array[-shift:]`,
rendered with take/drop/replicate). -/
def array_shift_1d (array : Arr1) (shift : Int) (wrap : Bool)
    (fill_value : Val) : Except PyErr Arr1 :=
  let n := array.data.length
  match array_shift_mod shift n with
  | .error e => .error e
  | .ok shift_mod =>
    if (¬ wrap ∧ shift = 0) ∨ (wrap ∧ shift_mod = 0) then
      .ok array
    else if wrap then
      .ok ⟨array.dtype, roll_1d array.data shift_mod⟩
    else
      match full_for_fill_1d array.dtype n fill_value with
      | .error e => .error e
      | .ok result =>
        if shift > 0 then
          let sh := shift.toNat
          .ok ⟨result.dtype,
            List.replicate (min sh n) fill_value ++ array.data.take (n - sh)⟩
        else
          let sh := (-shift).toNat
          .ok ⟨result.dtype,
            array.data.drop sh ++ List.replicate (min sh n) fill_value⟩

/-- `array_shift` (util.py:1309) on a 2-D array.  Same structure; the
slice assignments act on whole rows for axis 0 and within each row for
axis 1.  Accessing `array.shape[axis]` with an axis outside {0, 1} raises
`IndexError` (reachable only when the shift is nonzero). -/
def array_shift_2d (array : Arr2) (shift : Int) (axis : Nat) (wrap : Bool)
    (fill_value : Val) : Except PyErr Arr2 :=
  let rows := array.data.length
  let cols := (array.data.headD []).length
  match (if shift = 0 then .ok 0
         else if 2 ≤ axis then .error .indexError
         else array_shift_mod shift (if axis = 0 then rows else cols) :
         Except PyErr Int) with
  | .error e => .error e
  | .ok shift_mod =>
    if (¬ wrap ∧ shift = 0) ∨ (wrap ∧ shift_mod = 0) then
      .ok array
    else if wrap then
      match roll_2d array.data shift_mod axis with
      | .error e => .error e
      | .ok rolled => .ok ⟨array.dtype, rolled⟩
    else
      match full_for_fill_2d array.dtype rows cols fill_value with
      | .error e => .error e
      | .ok result =>
        let fillRow := List.replicate cols fill_value
        let data :=
          if axis = 0 then
            if shift > 0 then
              let sh := shift.toNat
              List.replicate (min sh rows) fillRow ++ array.data.take (rows - sh)
            else
              let sh := (-shift).toNat
              array.data.drop sh ++ List.replicate (min sh rows) fillRow
          else if axis = 1 then
            if shift > 0 then
              let sh := shift.toNat
              array.data.map (fun row =>
                List.replicate (min sh cols) fill_value ++ row.take (cols - sh))
            else
              let sh := (-shift).toNat
              array.data.map (fun row =>
                row.drop sh ++ List.replicate (min sh cols) fill_value)
          else result.data
        .ok ⟨result.dtype, data⟩

--------------------------------------------------------------------------
-- 1-D set operations
--------------------------------------------------------------------------

/-- NumPy elementwise `(array == other).all()` on equal-length arrays. -/
def npEqAll (a b : List Val) : Bool := (List.zipWith valEq a b).all id

/-- First-occurrence deduplication.  Python `frozenset` iteration order is
unspecified; the model fixes first-occurrence order (no theorem depends on
the order of this fallback path). -/
def dedupFirst (l : List Val) : List Val :=
  l.foldl (fun acc v => if acc.contains v then acc else acc ++ [v]) []

def pyFrozensetUnion (a b : List Val) : List Val := dedupFirst (a ++ b)

def pyFrozensetIntersect (a b : List Val) : List Val :=
  (dedupFirst a).filter (fun v => b.contains v)

/-- Promotion as performed inside `np.union1d`/`np.intersect1d` (via
concatenate); the error case cannot arise on the kind-compatible operands
that reach this path and falls back to object. -/
def npPromoteOrObject (d1 d2 : Dtype) : Dtype :=
  match np_result_type d1 d2 with
  | .ok d => d
  | .error _ => DTYPE_OBJECT

/-- The ordering relation `valLe` as a Prop relation, for sorting. -/
def valLeR (a b : Val) : Prop := valLe a b = true

instance : DecidableRel valLeR := fun a b => decEq (valLe a b) true

/-- `np.union1d`: sorted unique values of the concatenation.  (Sorting is
modelled with insertion sort; NumPy's result is the unique sorted list
regardless of algorithm.) -/
def np_union1d (array other : Arr1) : Arr1 :=
  ⟨npPromoteOrObject array.dtype other.dtype,
    List.insertionSort valLeR (dedupFirst (array.data ++ other.data))⟩

/-- `np.intersect1d`: sorted unique common values. -/
def np_intersect1d (array other : Arr1) : Arr1 :=
  ⟨npPromoteOrObject array.dtype other.dtype,
    List.insertionSort valLeR
      ((dedupFirst array.data).filter (fun v => other.data.contains v))⟩

/-- `_ufunc_set_1d` (util.py:1364): 1-D set operations with the
short-circuit comparisons.  The `func` argument is embedded as the Boolean
`is_union` (the source merely tests `func` against `np.union1d` /
`np.intersect1d`, which is what the two wrappers pass).  Python early
returns are flattened into nested conditionals in source order. -/
def _ufunc_set_1d (is_union : Bool) (array other : Arr1)
    (assume_unique : Bool) : Except PyErr Arr1 :=
  match resolve_dtype array.dtype other.dtype with
  | .error e => .error e
  | .ok dtype =>
    if ¬ is_union ∧ (array.data.length = 0 ∨ other.data.length = 0) then
      -- intersection with an empty operand: fresh empty array
      .ok ⟨dtype, []⟩
    else if assume_unique ∧ is_union ∧ array.data.length = 0 then
      .ok other
    else if assume_unique ∧ is_union ∧ other.data.length = 0 then
      .ok array
    else if assume_unique ∧ array.data.length = other.data.length
        ∧ npEqAll array.data other.data then
      -- operands identical: return an argument, order preserved
      .ok array
    else
      let array_is_str := array.dtype.kind ∈ DTYPE_STR_KIND
      let other_is_str := other.dtype.kind ∈ DTYPE_STR_KIND
      let set_compare := xor array_is_str other_is_str
      if set_compare ∨ dtype.kind = NpKind.O then
        match iterable_to_array_1d
            (.setLike (if is_union then pyFrozensetUnion array.data other.data
                       else pyFrozensetIntersect array.data other.data))
            (.dt dtype) with
        | .ok (v, _) => .ok v
        | .error e => .error e
      else if is_union then .ok (np_union1d array other)
      else .ok (np_intersect1d array other)

/-- `union1d` (util.py:1533). -/
def union1d (array other : Arr1) (assume_unique : Bool) : Except PyErr Arr1 :=
  _ufunc_set_1d true array other assume_unique

/-- `intersect1d` (util.py:1545). -/
def intersect1d (array other : Arr1) (assume_unique : Bool) : Except PyErr Arr1 :=
  _ufunc_set_1d false array other assume_unique

--------------------------------------------------------------------------
-- Python slices and slice_to_ascending_slice
--------------------------------------------------------------------------

/-- A Python slice object: optional start, stop and step. -/
structure PySlice where
  start : Option Int
  stop : Option Int
  step : Option Int
  deriving DecidableEq, Repr

/-- CPython `slice.indices(n)`: resolve a slice against a sequence length,
clamping start and stop into `[0, n]` for a positive step and `[-1, n-1]`
for a negative one; a zero step raises `ValueError`. -/
def pySliceIndices (key : PySlice) (n : Nat) : Except PyErr (Int × Int × Int) :=
  let step := key.step.getD 1
  if step = 0 then .error .valueError
  else
    let lower : Int := if step < 0 then -1 else 0
    let upper : Int := if step < 0 then (n : Int) - 1 else n
    let start :=
      match key.start with
      | Option.none => if step < 0 then upper else lower
      | some s => if s < 0 then max (s + n) lower else min s upper
    let stop :=
      match key.stop with
      | Option.none => if step < 0 then lower else upper
      | some s => if s < 0 then max (s + n) lower else min s upper
    .ok (start, stop, step)

/-- The number of elements of Python `range(a, b, st)` (`st ≠ 0`). -/
def pyRangeCount (a b st : Int) : Nat :=
  if 0 < st then (if a < b then ((b - a + st - 1).fdiv st).toNat else 0)
  else if st < 0 then (if b < a then ((a - b - st - 1).fdiv (-st)).toNat else 0)
  else 0

/-- The elements of Python `range(a, b, st)` as a list. -/
def pyRangeList (a : Int) (cnt : Nat) (st : Int) : List Int :=
  (List.range cnt).map (fun (k : Nat) => a + (k : Int) * st)

/-- The indices a slice selects from a sequence of length `n`, in selection
order (descending for a negative step). -/
def sliceSelect (key : PySlice) (n : Nat) : Except PyErr (List Int) :=
  match pySliceIndices key n with
  | .error e => .error e
  | .ok (a, b, st) => .ok (pyRangeList a (pyRangeCount a b st) st)

/-- `next(reversed(range(a, b, st)))`: the last element of the range, or
`StopIteration` when the range is empty. -/
def pyRangeLast (a b st : Int) : Except PyErr Int :=
  let cnt := pyRangeCount a b st
  if cnt = 0 then .error .stopIteration
  else .ok (a + ((cnt : Int) - 1) * st)

/-- `slice_to_ascending_slice` (util.py:875): given a slice, return a slice
that, with ascending integers, covers the same values.  Positive or `None`
steps are returned unchanged; step −1 swaps and shifts the bounds; for
steps < −1 the start is recovered as the last element of the resolved
range (`next(reversed(range(*key.indices(size))))`, which raises
`StopIteration` on an empty selection; a zero step raises `ValueError`
inside `indices`). -/
def slice_to_ascending_slice (key : PySlice) (size : Nat) :
    Except PyErr PySlice :=
  match key.step with
  | Option.none => .ok key
  | some stp =>
    if stp > 0 then .ok key
    else
      let stop : Option Int :=
        match key.start with
        | Option.none => Option.none
        | some s => some (s + 1)
      if stp = -1 then
        let start : Option Int :=
          match key.stop with
          | Option.none => Option.none
          | some s => some (s + 1)
        .ok ⟨start, stop, some 1⟩
      else
        match pySliceIndices key size with
        | .error e => .error e
        | .ok (a, b, st) =>
          match pyRangeLast a b st with
          | .error e => .error e
          | .ok start => .ok ⟨some start, stop, some (-stp)⟩

--------------------------------------------------------------------------
-- matmul (container_util.py) over labeled containers
--------------------------------------------------------------------------

/-- The ndarray of a label list (labels are modelled as strings; the array
dtype is the unicode dtype of the widest label). -/
def strArr (ls : List String) : Arr1 :=
  ⟨.str (ls.foldl (fun m s => max m s.length) 0), ls.map .vStr⟩

def valToStr : Val → String
  | .vStr s => s
  | _ => ""

/-- Modelled from the spec: `Index.union` delegates to the 1-D set-operation
utilities with `assume_unique=True` (index labels are unique, §4.3), with
the identity short-circuit preserving original order; the `Index` class
itself is not under src/.  The error case is unreachable for the string
dtypes used here. -/
def index_union (a b : List String) : List String :=
  match union1d (strArr a) (strArr b) true with
  | .ok r => r.data.map valToStr
  | .error _ => []

/-- Modelled from the spec: `Series.reindex` conforms values onto a target
label list, filling labels absent from the original index with the dtype
null (§4.6); series.py is not under src/.  In this integer-valued model the
fill is 0; the matmul paths below only reindex onto label sets equal to the
original, so the fill is never exercised. -/
def series_reindex (idx : List String) (vals : List Int)
    (target : List String) : List Int :=
  target.map (fun l => match idx.findIdx? (fun x => x = l) with
    | some p => vals.getD p 0
    | Option.none => 0)

/-- Modelled from the spec: `Frame.reindex(index=target)` reorders rows by
label with null fill for missing labels (§4.6); frame.py is not under
src/. -/
def frame_reindex_rows (idx : List String) (m : List (List Int))
    (target : List String) (cols : Nat) : List (List Int) :=
  target.map (fun l => match idx.findIdx? (fun x => x = l) with
    | some p => m.getD p (List.replicate cols 0)
    | Option.none => List.replicate cols 0)

/-- Modelled from the spec: `Frame.reindex(columns=target)` reorders columns
by label with null fill for missing labels (§4.6). -/
def frame_reindex_cols (colIdx : List String) (m : List (List Int))
    (target : List String) : List (List Int) :=
  m.map (fun row => target.map (fun l => match colIdx.findIdx? (fun x => x = l) with
    | some p => row.getD p 0
    | Option.none => 0))

/-- Column count of a 2-D list (rows assumed rectangular). -/
def shape1 (m : List (List Int)) : Nat := (m.headD []).length

def dotInt (a b : List Int) : Int := (List.zipWith (· * ·) a b).sum

/-- `np.matmul` on two 1-D operands; `ValueError` on length mismatch. -/
def np_matmul_vv (a b : List Int) : Except PyErr Int :=
  if a.length = b.length then .ok (dotInt a b) else .error .valueError

/-- `np.matmul` on a 1-D and a 2-D operand. -/
def np_matmul_vm (a : List Int) (m : List (List Int)) :
    Except PyErr (List Int) :=
  if a.length = m.length then .ok (m.transpose.map (dotInt a))
  else .error .valueError

/-- `np.matmul` on a 2-D and a 1-D operand. -/
def np_matmul_mv (m : List (List Int)) (b : List Int) :
    Except PyErr (List Int) :=
  if shape1 m = b.length then .ok (m.map (fun row => dotInt row b))
  else .error .valueError

/-- `np.matmul` on two 2-D operands. -/
def np_matmul_mm (m1 m2 : List (List Int)) :
    Except PyErr (List (List Int)) :=
  if shape1 m1 = m2.length then
    .ok (m1.map (fun row => m2.transpose.map (dotInt row)))
  else .error .valueError

/-- matmul operands: raw 1-D/2-D ndarrays or labeled Series/Frame (labels
as strings, numeric contents as integers). -/
inductive MatOperand
  | arr1 (v : List Int)
  | arr2 (m : List (List Int))
  | series (idx : List String) (v : List Int)
  | frame (idx cols : List String) (m : List (List Int))
  deriving DecidableEq, Repr

/-- matmul results: a raw scalar/array (for raw-array paths and 0-d
results) or a labeled Series/Frame, with `Option.none` standing for the
auto-incremented integer index the constructors build when no labels are
propagated. -/
inductive MatResult
  | scalar (x : Int)
  | rawArr1 (v : List Int)
  | rawArr2 (m : List (List Int))
  | series (idx : Option (List String)) (v : List Int)
  | frame (idx : Option (List String)) (cols : Option (List String))
      (m : List (List Int))
  deriving DecidableEq, Repr

/-- `matmul` (container_util.py:68): matrix multiplication for Series and
Frame.  Branches follow the source: when both operands are labeled, the
union of the relevant label sets is compared by length against each operand
and a `RuntimeError` ("shapes not alignable for matrix multiplication") is
raised before any product; Series@array and Frame@array compare shapes and
raise the same error; the remaining raw-array combinations go straight to
`np.matmul`, whose own mismatch error is `ValueError`. -/
def matmul (lhs rhs : MatOperand) : Except PyErr MatResult :=
  match lhs, rhs with
  -- both raw ndarrays: return np.matmul(lhs, rhs) directly
  | .arr1 a, .arr1 b => (np_matmul_vv a b).map .scalar
  | .arr1 a, .arr2 m => (np_matmul_vm a m).map .rawArr1
  | .arr2 m, .arr1 b => (np_matmul_mv m b).map .rawArr1
  | .arr2 m1, .arr2 m2 => (np_matmul_mm m1 m2).map .rawArr2
  -- lhs.ndim == 1, lhs a Series
  | .series lidx lv, .series ridx rv =>
      let aligned := index_union lidx ridx
      if aligned.length ≠ lidx.length ∨ aligned.length ≠ ridx.length then
        .error .runtimeError
      else
        (np_matmul_vv (series_reindex lidx lv aligned)
          (series_reindex ridx rv aligned)).map .scalar
  | .series lidx lv, .frame ridx rcols rm =>
      let aligned := index_union lidx ridx
      if aligned.length ≠ lidx.length ∨ aligned.length ≠ ridx.length then
        .error .runtimeError
      else
        (np_matmul_vm (series_reindex lidx lv aligned)
          (frame_reindex_rows ridx rm aligned (shape1 rm))).map
          (fun dv => .series (some rcols) dv)
  | .series _ lv, .arr1 b =>
      if lv.length ≠ b.length then .error .runtimeError
      else (np_matmul_vv lv b).map .scalar
  | .series _ lv, .arr2 m =>
      if lv.length ≠ m.length then .error .runtimeError
      else (np_matmul_vm lv m).map (fun dv => .series Option.none dv)
  -- lhs a raw 1-D array, rhs labeled: no pre-check in the source
  | .arr1 a, .series _ rv => (np_matmul_vv a rv).map .scalar
  | .arr1 a, .frame _ rcols rm =>
      (np_matmul_vm a rm).map (fun dv => .series (some rcols) dv)
  -- lhs.ndim == 2, lhs a Frame
  | .frame lidx lcols lm, .series ridx rv =>
      let aligned := index_union lcols ridx
      if aligned.length ≠ lcols.length ∨ aligned.length ≠ ridx.length then
        .error .runtimeError
      else
        (np_matmul_mv (frame_reindex_cols lcols lm aligned)
          (series_reindex ridx rv aligned)).map (fun dv => .series (some lidx) dv)
  | .frame lidx lcols lm, .frame ridx rcols rm =>
      let aligned := index_union lcols ridx
      if aligned.length ≠ lcols.length ∨ aligned.length ≠ ridx.length then
        .error .runtimeError
      else
        (np_matmul_mm (frame_reindex_cols lcols lm aligned)
          (frame_reindex_rows ridx rm aligned (shape1 rm))).map
          (fun dm => .frame (some lidx) (some rcols) dm)
  | .frame lidx _ lm, .arr1 b =>
      if shape1 lm ≠ b.length then .error .runtimeError
      else (np_matmul_mv lm b).map (fun dv => .series (some lidx) dv)
  | .frame lidx _ lm, .arr2 m =>
      if shape1 lm ≠ m.length then .error .runtimeError
      else (np_matmul_mm lm m).map (fun dm => .frame (some lidx) Option.none dm)
  -- lhs a raw 2-D array, rhs labeled
  | .arr2 m, .series _ rv =>
      (np_matmul_mv m rv).map (fun dv => .series Option.none dv)
  | .arr2 m, .frame _ rcols rm =>
      if shape1 m ≠ rm.length then .error .runtimeError
      else (np_matmul_mm m rm).map (fun dm => .frame Option.none (some rcols) dm)

--------------------------------------------------------------------------
-- Duplicate detection (1-D): sortable and hashable algorithms
--------------------------------------------------------------------------

/-- The comparison used by `np.argsort(kind='mergesort')` modelled as a
sort of (index, value) pairs by value with ties broken by the original
index — exactly what a stable sort of the values produces. -/
def argsortKey {α : Type} [LinearOrder α] (p q : Nat × α) : Prop :=
  p.2 < q.2 ∨ (p.2 = q.2 ∧ p.1 ≤ q.1)

instance {α : Type} [LinearOrder α] : DecidableRel (argsortKey (α := α)) :=
  fun p q => inferInstanceAs (Decidable (_ ∨ _))

instance {α : Type} [LinearOrder α] : IsTotal (Nat × α) argsortKey where
  total p q := by
    unfold argsortKey
    rcases lt_trichotomy p.2 q.2 with h | h | h
    · exact Or.inl (Or.inl h)
    · rcases le_total p.1 q.1 with h2 | h2
      · exact Or.inl (Or.inr ⟨h, h2⟩)
      · exact Or.inr (Or.inr ⟨h.symm, h2⟩)
    · exact Or.inr (Or.inl h)

instance {α : Type} [LinearOrder α] : IsTrans (Nat × α) argsortKey where
  trans p q r := by
    unfold argsortKey
    rintro (h1 | ⟨h1, h1i⟩) (h2 | ⟨h2, h2i⟩)
    · exact Or.inl (h1.trans h2)
    · exact Or.inl (h2 ▸ h1)
    · exact Or.inl (h1 ▸ h2)
    · exact Or.inr ⟨h1.trans h2, h1i.trans h2i⟩

/-- `_array_to_duplicated_sortable` (util.py:1212) on a 1-D array: stable
argsort, compare the sorted array with its right-roll, clear the wraparound
flag, combine first/last flags per the exclude options, then un-sort with
the argsort of the argsort (NumPy fancy indexing `dupes[r_idx]` is a map).
The 1-D branch ignores the axis argument. -/
def _array_to_duplicated_sortable {α : Type} [LinearOrder α] (array : List α)
    (exclude_first exclude_last : Bool) : List Bool :=
  let sp := List.insertionSort argsortKey array.enum
  let o_idx := sp.map (fun p => p.1)
  let array_sorted := sp.map (fun p => p.2)
  let f_flags0 := List.zipWith (fun x y => decide (x = y)) array_sorted
    (roll_1d array_sorted 1)
  if ¬ f_flags0.any id then List.replicate f_flags0.length false
  else
    let f_flags := f_flags0.set 0 false
    let dupes :=
      if exclude_first ∧ ¬ exclude_last then f_flags
      else
        let l_flags := roll_1d f_flags (-1)
        if ¬ exclude_first ∧ exclude_last then l_flags
        else if ¬ exclude_first ∧ ¬ exclude_last then
          List.zipWith or f_flags l_flags
        else List.zipWith and f_flags l_flags
    let r_idx := (List.insertionSort argsortKey o_idx.enum).map (fun p => p.1)
    r_idx.map (fun k => dupes.getD k false)

/-- Python dict lookup over an association list. -/
def lookupD {α : Type} [DecidableEq α] (d : List (α × Nat)) (k : α) :
    Option Nat :=
  (d.find? (fun p => decide (p.1 = k))).map Prod.snd

/-- Python dict assignment `d[k] = v`: overwrite in place if the key is
present (insertion order preserved), else append. -/
def dictSet {α : Type} [DecidableEq α] (d : List (α × Nat)) (k : α) (v : Nat) :
    List (α × Nat) :=
  if (lookupD d k).isSome then
    d.map (fun p => if p.1 = k then (k, v) else p)
  else d ++ [(k, v)]

/-- One iteration of the `_array_to_duplicated_hashable` loop (util.py:1186):
state is `(unique_to_first, dupe_to_first, dupe_to_last, is_dupe)`. -/
def dupStep {α : Type} [DecidableEq α]
    (st : List (α × Nat) × List (α × Nat) × List (α × Nat) × List Bool)
    (p : Nat × α) :
    List (α × Nat) × List (α × Nat) × List (α × Nat) × List Bool :=
  match st with
  | (u2f, d2f, d2l, is_dupe) =>
    match lookupD u2f p.2 with
    | Option.none => (u2f ++ [(p.2, p.1)], d2f, d2l, is_dupe)
    | some first =>
        (u2f,
         (if (lookupD d2f p.2).isSome then d2f else d2f ++ [(p.2, first)]),
         dictSet d2l p.2 p.1,
         is_dupe.set p.1 true)

/-- `is_dupe[indices] = b` for a list of indices. -/
def setAll (fs : List Bool) (idxs : List Nat) (b : Bool) : List Bool :=
  idxs.foldl (fun fs i => fs.set i b) fs

/-- `_array_to_duplicated_hashable` (util.py:1154) on a 1-D array: a single
pass filling the three dicts and the base flags, then the `exclude_last`
clearing of last occurrences followed by the `not exclude_first` setting of
first occurrences.  (For a 1-D array `value_source` is the array itself and
no tuple conversion happens; `shape[axis]` is the length for axis 0.) -/
def _array_to_duplicated_hashable {α : Type} [DecidableEq α] (array : List α)
    (exclude_first exclude_last : Bool) : List Bool :=
  let st := array.enum.foldl dupStep
    ([], [], [], List.replicate array.length false)
  let afterLast :=
    if exclude_last then setAll st.2.2.2 (st.2.2.1.map Prod.snd) false
    else st.2.2.2
  if ¬ exclude_first then setAll afterLast (st.2.1.map Prod.snd) true
  else afterLast

/-- Whether an earlier position holds the same value. -/
def hasEarlierB {α : Type} [DecidableEq α] (a : List α) (i : Nat) : Bool :=
  (List.range i).any (fun j => decide (a[j]? = a[i]?))

/-- Whether a later position holds the same value. -/
def hasLaterB {α : Type} [DecidableEq α] (a : List α) (i : Nat) : Bool :=
  (List.range a.length).any (fun j => decide (i < j ∧ a[j]? = a[i]?))

/-- The common semantics both duplicate-detection algorithms compute:
per position, duplication status filtered by the exclude options. -/
def dupSpecList {α : Type} [DecidableEq α] (a : List α)
    (exclude_first exclude_last : Bool) : List Bool :=
  (List.range a.length).map (fun i =>
    if exclude_first then
      (if exclude_last then hasEarlierB a i && hasLaterB a i
       else hasEarlierB a i)
    else
      (if exclude_last then hasLaterB a i
       else hasEarlierB a i || hasLaterB a i))

/-- Column `i` of a 2-D array in row-list representation (`array[:, i]`).
For a rectangular array every row has an entry at every `i` below the
column count, so the option filter drops no row and this is exactly the
column. -/
def arrColumn {α : Type} (m : List (List α)) (i : Nat) : List α :=
  m.filterMap (fun r => r[i]?)

/-- `_array_to_duplicated_hashable` (util.py:1154) on a 2-D array of given
column count: `len_axis = array.shape[axis]` (an `IndexError` for an axis
outside {0, 1}); for axis 0 `value_source` iterates the rows, for axis 1
the columns `array[:, i]` for `i in range(len_axis)`.  `to_hashable =
tuple` turns each row/column array into a hashable tuple, which this
row-list embedding models as the row/column list itself (tuples and lists
of `α` carry the same decidable equality).  The loop and the exclude
handling are the same code as in the 1-D branch, applied to
`value_source`. -/
def _array_to_duplicated_hashable_2d {α : Type} [DecidableEq α]
    (m : List (List α)) (cols axis : Nat)
    (exclude_first exclude_last : Bool) : Except PyErr (List Bool) :=
  if axis = 0 then
    .ok (_array_to_duplicated_hashable m exclude_first exclude_last)
  else if axis = 1 then
    .ok (_array_to_duplicated_hashable ((List.range cols).map (arrColumn m))
      exclude_first exclude_last)
  else .error .indexError

/-- `match.all(axis=opposite_axis)` per sorted row/column pair: NumPy
elementwise `==` of two equal-length slices followed by `.all()`. -/
def rowsEqB {α : Type} [DecidableEq α] (r1 r2 : List α) : Bool :=
  (List.zipWith (fun x y => decide (x = y)) r1 r2).all id

/-- `_array_to_duplicated_sortable` (util.py:1212) on a 2-D array of given
column count; an axis outside {0, 1} raises `NotImplementedError`.
`np.lexsort` over the per-axis keys listed in reverse order (last key
primary) is a stable sort of the rows (axis 0) / columns (axis 1) under
lexicographic order, modelled like the 1-D stable argsort as an insertion
sort of (index, slice) pairs under the lexicographic `LinearOrder` on
lists.  Axis 1 is embedded in the transposed (column-list) representation,
in which `array[:, o_idx]` permutes the column list and
`roll_2d(·, 1, axis=1)` rotates it (see `roll_2d` above), so both axes
share the `roll_1d` form on the sorted slice list, and
`(array_sorted == roll_2d(...)).all(axis=opposite_axis)` is `rowsEqB` per
slice pair.  The remaining flag handling is the same code as in the 1-D
branch. -/
def _array_to_duplicated_sortable_2d {α : Type} [LinearOrder α]
    (m : List (List α)) (cols axis : Nat)
    (exclude_first exclude_last : Bool) : Except PyErr (List Bool) :=
  if axis = 0 ∨ axis = 1 then
    let vs := if axis = 0 then m else (List.range cols).map (arrColumn m)
    let sp := List.insertionSort argsortKey vs.enum
    let o_idx := sp.map (fun p => p.1)
    let array_sorted := sp.map (fun p => p.2)
    let f_flags0 := List.zipWith rowsEqB array_sorted (roll_1d array_sorted 1)
    .ok (if ¬ f_flags0.any id then List.replicate f_flags0.length false
      else
        let f_flags := f_flags0.set 0 false
        let dupes :=
          if exclude_first ∧ ¬ exclude_last then f_flags
          else
            let l_flags := roll_1d f_flags (-1)
            if ¬ exclude_first ∧ exclude_last then l_flags
            else if ¬ exclude_first ∧ ¬ exclude_last then
              List.zipWith or f_flags l_flags
            else List.zipWith and f_flags l_flags
        let r_idx := (List.insertionSort argsortKey o_idx.enum).map (fun p => p.1)
        r_idx.map (fun k => dupes.getD k false))
  else .error .notImplementedError

/-- Invariant of the `_array_to_duplicated_hashable` loop state after the
first `m` array positions have been processed: `unique_to_first` maps each
value seen so far to its first position, `dupe_to_first`/`dupe_to_last` map
each value seen at least twice to its first/most-recent position, and
`is_dupe` flags the processed non-first occurrences. -/
structure DupInv {α : Type} [DecidableEq α] (a : List α) (m : Nat)
    (st : List (α × Nat) × List (α × Nat) × List (α × Nat) × List Bool) :
    Prop where
  hu : ∀ v k, lookupD st.1 v = some k ↔
    (k < m ∧ a[k]? = some v ∧ ∀ j < k, a[j]? ≠ some v)
  hd2f : ∀ v k, lookupD st.2.1 v = some k ↔
    ((∃ i2, i2 < m ∧ a[i2]? = some v ∧ ∃ i1, i1 < i2 ∧ a[i1]? = some v)
      ∧ k < m ∧ a[k]? = some v ∧ ∀ j < k, a[j]? ≠ some v)
  hd2l : ∀ v k, lookupD st.2.2.1 v = some k ↔
    (k < m ∧ a[k]? = some v ∧ (∃ i1, i1 < k ∧ a[i1]? = some v)
      ∧ ∀ j, k < j → j < m → a[j]? ≠ some v)
  hd2fkeys : (st.2.1.map Prod.fst).Nodup
  hd2lkeys : (st.2.2.1.map Prod.fst).Nodup
  hlen : st.2.2.2.length = a.length
  hflags : ∀ i, i < a.length →
    st.2.2.2[i]? = some (decide (i < m ∧ ∃ j, j < i ∧ a[j]? = a[i]?))

--------------------------------------------------------------------------
-- Claim C1: dtype_to_na null sentinels
--------------------------------------------------------------------------

/-- C1 counterexample: the claim states `dtype_to_na` returns a not-a-time
sentinel for both datetime and timedelta (duration) kinds.  For a
timedelta64 dtype the code instead returns `EMPTY_TIMEDELTA =
np.timedelta64(0)`, a zero duration, which is not a not-a-time sentinel
(the source comments "define missing for timedelta as an untyped 0"). -/
theorem c1_counterexample :
    dtype_to_na (.timedelta .D) = .ok (.timedelta (some 0))
      ∧ NaValue.isNaT (.timedelta (some 0)) = false
      ∧ NaValue.timedelta (some 0) ≠ NAT :=
  ⟨rfl, rfl, by decide⟩

/-- C1 amended: for every dtype, `dtype_to_na` returns 0 for integer kinds,
False for boolean, the float NaN sentinel for float/complex kinds, None for
object, the empty string for string kinds, the not-a-time sentinel for
datetime kind, and the zero timedelta (`np.timedelta64(0)`, not NaT) for
duration kind; it raises `NotImplementedError` for void/raw-binary. -/
theorem c1_dtype_to_na (d : Dtype) :
    (d.kind ∈ DTYPE_INT_KIND → dtype_to_na d = .ok (.int 0))
      ∧ (d.kind = NpKind.b → dtype_to_na d = .ok (.bool false))
      ∧ (d.kind ∈ DTYPE_NAN_KIND → dtype_to_na d = .ok .nan)
      ∧ (d.kind = NpKind.O → dtype_to_na d = .ok .none)
      ∧ (d.kind ∈ DTYPE_STR_KIND → dtype_to_na d = .ok (.str ""))
      ∧ (d.kind = NpKind.M → dtype_to_na d = .ok NAT)
      ∧ (d.kind = NpKind.m → dtype_to_na d = .ok (.timedelta (some 0)))
      ∧ (d.kind = NpKind.V → dtype_to_na d = .error .notImplementedError) := by
  cases d <;> simp [dtype_to_na, Dtype.kind, DTYPE_INT_KIND, DTYPE_NAN_KIND,
    DTYPE_STR_KIND, DTYPE_DATETIME_KIND, DTYPE_TIMEDELTA_KIND, NAT,
    EMPTY_TIMEDELTA]

/-- C1 witness: the amended theorem applied at concrete dtypes of each
family. -/
theorem c1_witness :
    dtype_to_na (.uint 4) = .ok (.int 0)
      ∧ dtype_to_na (.float 8) = .ok .nan
      ∧ dtype_to_na (.datetime .ns) = .ok NAT
      ∧ dtype_to_na (.timedelta .s) = .ok (.timedelta (some 0))
      ∧ dtype_to_na (.void 8) = .error .notImplementedError :=
  ⟨(c1_dtype_to_na (.uint 4)).1 (by decide),
   (c1_dtype_to_na (.float 8)).2.2.1 (by decide),
   (c1_dtype_to_na (.datetime .ns)).2.2.2.2.2.1 (by decide),
   (c1_dtype_to_na (.timedelta .s)).2.2.2.2.2.2.1 (by decide),
   (c1_dtype_to_na (.void 8)).2.2.2.2.2.2.2 (by decide)⟩

--------------------------------------------------------------------------
-- Claim C2: totality of resolve_dtype
--------------------------------------------------------------------------

/-- C2 counterexample: the claim states `resolve_dtype` is total for every
pair of dtypes including void/raw-binary mixes.  Mixing a void dtype with a
different dtype reaches the final `np.result_type` call, which raises
`TypeError` ("invalid type promotion"). -/
theorem c2_counterexample :
    resolve_dtype (.void 8) (.int 8) = .error .typeError :=
  rfl

/-- `np.result_type` succeeds on every pair of numeric-kind dtypes. -/
theorem np_result_type_ok_numeric (d1 d2 : Dtype)
    (h1 : d1.kind ∈ [NpKind.b, .i, .u, .f, .c])
    (h2 : d2.kind ∈ [NpKind.b, .i, .u, .f, .c]) :
    ∃ d, np_result_type d1 d2 = .ok d := by
  cases d1 <;> cases d2 <;> simp_all [Dtype.kind] <;>
    · simp only [np_result_type]
      split_ifs <;> exact ⟨_, rfl⟩

/-- `np.result_type` succeeds on every pair of string-kind dtypes. -/
theorem np_result_type_ok_str (d1 d2 : Dtype)
    (h1 : d1.kind ∈ DTYPE_STR_KIND) (h2 : d2.kind ∈ DTYPE_STR_KIND) :
    ∃ d, np_result_type d1 d2 = .ok d := by
  cases d1 <;> cases d2 <;> simp_all [Dtype.kind, DTYPE_STR_KIND] <;>
    · simp only [np_result_type]
      split_ifs <;> exact ⟨_, rfl⟩

/-- `np.result_type` succeeds on every pair of datetime64 dtypes. -/
theorem np_result_type_ok_datetime (u1 u2 : TimeUnit) :
    ∃ d, np_result_type (.datetime u1) (.datetime u2) = .ok d := by
  simp only [np_result_type]
  split_ifs <;> exact ⟨_, rfl⟩

/-- On two timedelta64 dtypes, the only error `np.result_type` can produce
is `TypeError` (incompatible nonlinear base units). -/
theorem np_result_type_timedelta_err (u1 u2 : TimeUnit) (e : PyErr)
    (h : np_result_type (.timedelta u1) (.timedelta u2) = .error e) :
    e = .typeError := by
  simp only [np_result_type] at h
  split_ifs at h <;> simp_all

/-- Helper (shared): `resolve_dtype` succeeds whenever the two dtypes are
identical or neither is void-kind. -/
theorem resolve_dtype_ok_of_nonvoid (d1 d2 : Dtype)
    (h : d1 = d2 ∨ (d1.kind ≠ NpKind.V ∧ d2.kind ≠ NpKind.V)) :
    ∃ d, resolve_dtype d1 d2 = .ok d := by
  by_cases he : d1 = d2
  · exact ⟨d1, by simp [resolve_dtype, he]⟩
  rcases h with h | ⟨h1, h2⟩
  · exact absurd h he
  simp only [resolve_dtype]
  split_ifs with hO hStr hDt hTd hGuard
  · exact ⟨_, rfl⟩
  · exact np_result_type_ok_str d1 d2 hStr.1 hStr.2
  · obtain ⟨hd1, hd2⟩ := hDt
    obtain ⟨w1, rfl⟩ : ∃ u, d1 = .datetime u := by
      cases d1 <;> simp_all [Dtype.kind, DTYPE_DATETIME_KIND]
    obtain ⟨w2, rfl⟩ : ∃ u, d2 = .datetime u := by
      cases d2 <;> simp_all [Dtype.kind, DTYPE_DATETIME_KIND]
    exact np_result_type_ok_datetime w1 w2
  · obtain ⟨hd1, hd2⟩ := hTd
    obtain ⟨w1, rfl⟩ : ∃ u, d1 = .timedelta u := by
      cases d1 <;> simp_all [Dtype.kind, DTYPE_TIMEDELTA_KIND]
    obtain ⟨w2, rfl⟩ : ∃ u, d2 = .timedelta u := by
      cases d2 <;> simp_all [Dtype.kind, DTYPE_TIMEDELTA_KIND]
    rcases hres : np_result_type (.timedelta w1) (.timedelta w2) with e | d
    · have := np_result_type_timedelta_err w1 w2 e hres
      subst this
      exact ⟨DTYPE_OBJECT, rfl⟩
    · exact ⟨d, rfl⟩
  · exact ⟨_, rfl⟩
  · -- final branch: no string/bool/datetime/timedelta kind involved, and
    -- object kind was handled above, so both kinds are numeric (void is
    -- excluded by hypothesis).
    apply np_result_type_ok_numeric d1 d2 <;>
      cases d1 <;> cases d2 <;>
        simp_all [Dtype.kind, DTYPE_STR_KIND, DTYPE_DATETIME_KIND,
          DTYPE_TIMEDELTA_KIND, DTYPE_BOOL]

/-- C2 amended: `resolve_dtype` is total on every pair of dtypes in which no
void/raw-binary dtype meets a *different* dtype: for identical operands, and
for any two dtypes neither of void kind, it returns a dtype and never
raises.  (A void dtype mixed with a different dtype raises `TypeError`.) -/
theorem c2_resolve_dtype_total (d1 d2 : Dtype)
    (h : d1 = d2 ∨ (d1.kind ≠ NpKind.V ∧ d2.kind ≠ NpKind.V)) :
    ∃ d, resolve_dtype d1 d2 = .ok d :=
  resolve_dtype_ok_of_nonvoid d1 d2 h

/-- C2 witness: totality applied at a concrete mixed-kind pair. -/
theorem c2_witness :
    ∃ d, resolve_dtype (.int 8) (.str 3) = .ok d :=
  c2_resolve_dtype_total (.int 8) (.str 3) (Or.inr (by decide))

--------------------------------------------------------------------------
-- Claim C3: set-operation identity short-circuit
--------------------------------------------------------------------------

/-- C3 counterexample: the claim states that under `assume_unique=True`,
equal lengths and elementwise equality, both `union1d` and `intersect1d`
return one operand unchanged.  For two *empty* operands of different
dtypes, `intersect1d` takes the empty-operand fast path first and returns a
fresh empty array of the *resolved* dtype — here float64, which is neither
the int64 operand nor the uint64 operand.  (The hypotheses of the claim
hold: lengths are equal and the elementwise comparison is vacuously
all-true.) -/
theorem c3_counterexample :
    (⟨.int 8, []⟩ : Arr1).data.length = (⟨.uint 8, []⟩ : Arr1).data.length
      ∧ npEqAll (⟨.int 8, []⟩ : Arr1).data (⟨.uint 8, []⟩ : Arr1).data = true
      ∧ intersect1d ⟨.int 8, []⟩ ⟨.uint 8, []⟩ true = .ok ⟨.float 8, []⟩
      ∧ (⟨.float 8, []⟩ : Arr1) ≠ ⟨.int 8, []⟩
      ∧ (⟨.float 8, []⟩ : Arr1) ≠ ⟨.uint 8, []⟩ :=
  ⟨rfl, rfl, rfl, by decide, by decide⟩

/-- C3 amended: with `assume_unique=True`, equal lengths and elementwise
equality (and dtypes a resolvable, i.e. non-void, pair), the operations
short-circuit without re-sorting: `union1d` returns the first operand
unchanged when it is nonempty and the second operand when both are empty;
`intersect1d` returns the first operand unchanged when nonempty, and for
two empty operands returns an empty array of the resolved dtype (which
need not equal either operand). -/
theorem c3_set_identity_short_circuit (a b : Arr1)
    (hv1 : a.dtype.kind ≠ NpKind.V) (hv2 : b.dtype.kind ≠ NpKind.V)
    (hlen : a.data.length = b.data.length)
    (heq : npEqAll a.data b.data = true) :
    union1d a b true = .ok (if a.data.length = 0 then b else a)
      ∧ (0 < a.data.length → intersect1d a b true = .ok a)
      ∧ (a.data.length = 0 → ∃ d, resolve_dtype a.dtype b.dtype = .ok d
            ∧ intersect1d a b true = .ok ⟨d, []⟩) := by
  obtain ⟨d, hd⟩ := resolve_dtype_ok_of_nonvoid a.dtype b.dtype (Or.inr ⟨hv1, hv2⟩)
  by_cases h0 : a.data.length = 0
  · refine ⟨?_, ?_, ?_⟩
    · simp [union1d, _ufunc_set_1d, hd, h0]
    · intro h
      omega
    · intro _
      exact ⟨d, hd, by simp [intersect1d, _ufunc_set_1d, hd, h0]⟩
  · have hb0 : ¬ b.data.length = 0 := by omega
    refine ⟨?_, ?_, ?_⟩
    · simp [union1d, _ufunc_set_1d, hd, h0, hb0, hlen, heq]
    · intro _
      simp [intersect1d, _ufunc_set_1d, hd, h0, hb0, hlen, heq]
    · intro h
      exact absurd h h0

/-- C3 witness: the amended theorem applied to a concrete identical pair
(order `[3, 1]` is preserved, not re-sorted) and to the empty case. -/
theorem c3_witness :
    union1d ⟨.int 8, [.vInt 3, .vInt 1]⟩ ⟨.int 8, [.vInt 3, .vInt 1]⟩ true
        = .ok ⟨.int 8, [.vInt 3, .vInt 1]⟩
      ∧ intersect1d ⟨.int 8, [.vInt 3, .vInt 1]⟩ ⟨.int 8, [.vInt 3, .vInt 1]⟩ true
        = .ok ⟨.int 8, [.vInt 3, .vInt 1]⟩ := by
  have h := c3_set_identity_short_circuit
    ⟨.int 8, [.vInt 3, .vInt 1]⟩ ⟨.int 8, [.vInt 3, .vInt 1]⟩
    (by decide) (by decide) (by decide) (by decide)
  exact ⟨h.1, h.2.1 (by decide)⟩

--------------------------------------------------------------------------
-- Claim C9: a string input is one element, not characters
--------------------------------------------------------------------------

/-- C9: for every Python string `s`, `iterable_to_array_1d(s)` returns a
one-element array holding the whole string (never an array of its
characters) with the uniqueness flag `True`; the dtype is the unicode
dtype of the string's width. -/
theorem c9_string_is_single_element (s : String) :
    iterable_to_array_1d (.pyStr s) .none
      = .ok (⟨.str s.length, [.vStr s]⟩, true) := by
  simp [iterable_to_array_1d, iterable_to_array_1d_tail, dtypeSpecEqInt,
    np_array_with_spec, np_array_auto, isStrVal, maxStrWidth, PyIterable.isDictlike]

--------------------------------------------------------------------------
-- Claim C10: oversized ints under dtype=int fall back to object
--------------------------------------------------------------------------

/-- C10: when `iterable_to_array_1d` is called with `dtype=int` on values
containing a Python integer too large for int64, the `OverflowError` is
caught internally and an object-dtype array holding the exact Python
integers is returned; no exception propagates. -/
theorem c10_overflow_to_object (l : List Int)
    (h : ∃ v ∈ l, ¬ fitsInt64 v) :
    iterable_to_array_1d (.pyList (l.map .vInt)) .pyInt
      = .ok (⟨.object, l.map .vInt⟩, decide ((l.map Val.vInt).length = 1)) := by
  obtain ⟨v, hv, hbig⟩ := h
  have hnil : l ≠ [] := by
    intro hc
    subst hc
    simp at hv
  have hover : np_array_int (l.map .vInt) = .error .overflowError := by
    have hstr : (l.map Val.vInt).any isStrVal = false := by
      simp [List.any_map, isStrVal, Function.comp]
    have hanybig : ((l.map Val.vInt).any fun v => match v with
        | .vInt n => ¬ fitsInt64 n | _ => false) = true :=
      List.any_eq_true.mpr ⟨.vInt v, List.mem_map_of_mem _ hv, by simpa using hbig⟩
    unfold np_array_int
    rw [hstr, hanybig]
    simp
  simp [iterable_to_array_1d, iterable_to_array_1d_tail, dtypeSpecEqInt, hnil,
    hover, DTYPE_OBJECT, PyIterable.isDictlike, PyIterable.contents]

/-- C10 witness: the overflow fallback at `l = [2^63]`. -/
theorem c10_witness :
    iterable_to_array_1d (.pyList ([(2 : Int) ^ 63].map .vInt)) .pyInt
      = .ok (⟨.object, [(2 : Int) ^ 63].map .vInt⟩,
          decide (([(2 : Int) ^ 63].map Val.vInt).length = 1)) :=
  c10_overflow_to_object [(2 : Int) ^ 63] ⟨2 ^ 63, by decide, by decide⟩

--------------------------------------------------------------------------
-- Claim C4: matmul alignment errors
--------------------------------------------------------------------------

/-- C4 counterexample: the claim extends the `RuntimeError` pre-check to
raw-array operands with mismatched inner dimensions, but a raw 1-D array
times a Series of a different length is passed straight to `np.matmul`,
which fails with `ValueError` at product time — not with a `RuntimeError`
before the product. -/
theorem c4_counterexample :
    matmul (.arr1 [1, 2]) (.series ["a", "b", "c"] [1, 2, 3])
        = .error .valueError
      ∧ PyErr.valueError ≠ PyErr.runtimeError :=
  ⟨rfl, by decide⟩

/-- C4 amended: whenever both operands are labeled (Series/Frame) and the
union of the left operand's columns (its index, for a 1-D left operand)
with the right operand's index differs in length from either side, `matmul`
raises `RuntimeError` ("shapes not alignable") before any product; the same
pre-check also guards Series@array, Frame@array and 2-D-array@Frame shape
mismatches.  The remaining raw-array combinations (1-D array against
Series/Frame, 2-D array against Series, array against array) have no
pre-check and surface the underlying `np.matmul` `ValueError` instead. -/
theorem c4_matmul_alignment :
    (∀ (lidx : List String) (lv : List Int) (ridx : List String) (rv : List Int),
      (index_union lidx ridx).length ≠ lidx.length
          ∨ (index_union lidx ridx).length ≠ ridx.length →
      matmul (.series lidx lv) (.series ridx rv) = .error .runtimeError)
    ∧ (∀ (lidx : List String) (lv : List Int) (ridx rcols : List String)
        (rm : List (List Int)),
      (index_union lidx ridx).length ≠ lidx.length
          ∨ (index_union lidx ridx).length ≠ ridx.length →
      matmul (.series lidx lv) (.frame ridx rcols rm) = .error .runtimeError)
    ∧ (∀ (lidx lcols : List String) (lm : List (List Int)) (ridx : List String)
        (rv : List Int),
      (index_union lcols ridx).length ≠ lcols.length
          ∨ (index_union lcols ridx).length ≠ ridx.length →
      matmul (.frame lidx lcols lm) (.series ridx rv) = .error .runtimeError)
    ∧ (∀ (lidx lcols : List String) (lm : List (List Int))
        (ridx rcols : List String) (rm : List (List Int)),
      (index_union lcols ridx).length ≠ lcols.length
          ∨ (index_union lcols ridx).length ≠ ridx.length →
      matmul (.frame lidx lcols lm) (.frame ridx rcols rm) = .error .runtimeError)
    ∧ (∀ (lidx : List String) (lv b : List Int), lv.length ≠ b.length →
      matmul (.series lidx lv) (.arr1 b) = .error .runtimeError)
    ∧ (∀ (lidx : List String) (lv : List Int) (m : List (List Int)),
      lv.length ≠ m.length →
      matmul (.series lidx lv) (.arr2 m) = .error .runtimeError)
    ∧ (∀ (lidx lcols : List String) (lm : List (List Int)) (b : List Int),
      shape1 lm ≠ b.length →
      matmul (.frame lidx lcols lm) (.arr1 b) = .error .runtimeError)
    ∧ (∀ (lidx lcols : List String) (lm m : List (List Int)),
      shape1 lm ≠ m.length →
      matmul (.frame lidx lcols lm) (.arr2 m) = .error .runtimeError)
    ∧ (∀ (m : List (List Int)) (ridx rcols : List String) (rm : List (List Int)),
      shape1 m ≠ rm.length →
      matmul (.arr2 m) (.frame ridx rcols rm) = .error .runtimeError) := by
  refine ⟨?_, ?_, ?_, ?_, ?_, ?_, ?_, ?_, ?_⟩
  · intro lidx lv ridx rv h
    simp [matmul, h]
  · intro lidx lv ridx rcols rm h
    simp [matmul, h]
  · intro lidx lcols lm ridx rv h
    simp [matmul, h]
  · intro lidx lcols lm ridx rcols rm h
    simp [matmul, h]
  · intro lidx lv b h
    simp [matmul, h]
  · intro lidx lv m h
    simp [matmul, h]
  · intro lidx lcols lm b h
    simp [matmul, h]
  · intro lidx lcols lm m h
    simp [matmul, h]
  · intro m ridx rcols rm h
    simp [matmul, h]

/-- C4 witness: the amended theorem applied to concrete misaligned
operands: Series over `['a']` against Series over `['b']` (union length 2
differs from both), and a Frame against a mismatched raw vector. -/
theorem c4_witness :
    matmul (.series ["a"] [1]) (.series ["b"] [2]) = .error .runtimeError
      ∧ matmul (.frame ["r"] ["a", "b"] [[1, 2]]) (.arr1 [1, 2, 3])
          = .error .runtimeError :=
  ⟨c4_matmul_alignment.1 ["a"] [1] ["b"] [2] (by decide),
   c4_matmul_alignment.2.2.2.2.2.2.1 ["r"] ["a", "b"] [[1, 2]] [1, 2, 3]
      (by decide)⟩

--------------------------------------------------------------------------
-- Claim C5: slice_to_ascending_slice
--------------------------------------------------------------------------

/-- Unfolding lemmas for `pyRangeCount`. -/
theorem pyRangeCount_pos (a b st : Int) (h : 0 < st) (hab : a < b) :
    pyRangeCount a b st = ((b - a + st - 1).fdiv st).toNat := by
  simp [pyRangeCount, h, hab]

theorem pyRangeCount_pos_empty (a b st : Int) (h : 0 < st) (hab : ¬ a < b) :
    pyRangeCount a b st = 0 := by
  simp [pyRangeCount, h, hab]

theorem pyRangeCount_neg (a b st : Int) (h : st < 0) (hba : b < a) :
    pyRangeCount a b st = ((a - b - st - 1).fdiv (-st)).toNat := by
  simp [pyRangeCount, not_lt_of_gt h, h, hba]

theorem pyRangeCount_neg_empty (a b st : Int) (h : st < 0) (hba : ¬ b < a) :
    pyRangeCount a b st = 0 := by
  simp [pyRangeCount, not_lt_of_gt h, h, hba]

/-- Reversing an arithmetic progression of `cnt` elements from `a` with
step `c` gives the progression from the last element with step `-c`. -/
theorem pyRangeList_reverse (a c : Int) (cnt : Nat) :
    (pyRangeList a cnt c).reverse
      = pyRangeList (a + ((cnt : Int) - 1) * c) cnt (-c) := by
  induction cnt generalizing a with
  | zero => simp [pyRangeList]
  | succ m ih =>
    have hsplit : pyRangeList a (m + 1) c
        = pyRangeList a m c ++ [a + (m : Int) * c] := by
      unfold pyRangeList
      rw [List.range_succ, List.map_append]
      rfl
    rw [hsplit, List.reverse_append, List.reverse_singleton,
      List.singleton_append, ih]
    unfold pyRangeList
    rw [List.range_succ_eq_map, List.map_cons, List.map_map]
    congr 1
    · push_cast
      ring
    · apply List.map_congr_left
      intro k hk
      simp only [Function.comp]
      push_cast
      ring

/-- Floor-division bounds for the Python range length formula with a
negative step (`s` is the step magnitude). -/
theorem pyRangeCount_neg_facts (a b s : Int) (hs : 0 < s) (hba : b < a) :
    1 ≤ (a - b + s - 1).fdiv s
      ∧ ((a - b + s - 1).fdiv s) * s ≤ a - b + s - 1
      ∧ a - b - 1 < ((a - b + s - 1).fdiv s) * s := by
  rw [Int.fdiv_eq_ediv _ (le_of_lt hs)]
  refine ⟨?_, ?_, ?_⟩
  · rw [Int.le_ediv_iff_mul_le hs]
    omega
  · exact Int.ediv_mul_le _ (ne_of_gt hs)
  · have h2 : (a - b + s - 1) / s < (a - b + s - 1) / s + 1 := by omega
    rw [Int.ediv_lt_iff_lt_mul hs] at h2
    have h3 : ((a - b + s - 1) / s + 1) * s = ((a - b + s - 1) / s) * s + s := by
      ring
    omega

/-- Resolution of a negative-step slice with `None`-or-nonnegative bounds:
the resolved start/stop land in `[-1, n-1]` with explicit `min` forms. -/
theorem pySliceIndices_neg_facts (ks ke : Option Int) (stp : Int) (n : Nat)
    (hneg : stp < 0)
    (hb1 : ∀ s, ks = some s → 0 ≤ s) (hb2 : ∀ s, ke = some s → 0 ≤ s) :
    ∃ a b, pySliceIndices ⟨ks, ke, some stp⟩ n = .ok (a, b, stp)
      ∧ -1 ≤ b ∧ a ≤ (n : Int) - 1
      ∧ (match ks with
          | Option.none => a = (n : Int) - 1
          | some s => a = min s ((n : Int) - 1))
      ∧ (match ke with
          | Option.none => b = -1
          | some w => b = min w ((n : Int) - 1)) := by
  have hstp0 : ¬ stp = 0 := by omega
  cases ks with
  | none =>
    cases ke with
    | none =>
      refine ⟨(n : Int) - 1, -1, ?_, by omega, by omega, rfl, rfl⟩
      simp [pySliceIndices, hstp0, hneg]
    | some w =>
      have hw := hb2 w rfl
      refine ⟨(n : Int) - 1, min w ((n : Int) - 1), ?_, by omega, by omega, rfl, rfl⟩
      simp [pySliceIndices, hstp0, hneg, not_lt_of_ge hw]
  | some s =>
    have hs := hb1 s rfl
    cases ke with
    | none =>
      refine ⟨min s ((n : Int) - 1), -1, ?_, by omega, by omega, rfl, rfl⟩
      simp [pySliceIndices, hstp0, hneg, not_lt_of_ge hs]
    | some w =>
      have hw := hb2 w rfl
      refine ⟨min s ((n : Int) - 1), min w ((n : Int) - 1), ?_, by omega, by omega,
        rfl, rfl⟩
      simp [pySliceIndices, hstp0, hneg, not_lt_of_ge hs, not_lt_of_ge hw]

/-- Resolution of a positive-step slice with `None`-or-nonnegative bounds. -/
theorem pySliceIndices_pos_facts (ks ke : Option Int) (st : Option Int) (n : Nat)
    (hpos : 0 < st.getD 1)
    (hb1 : ∀ v, ks = some v → 0 ≤ v) (hb2 : ∀ v, ke = some v → 0 ≤ v) :
    pySliceIndices ⟨ks, ke, st⟩ n
      = .ok ((match ks with | Option.none => 0 | some v => min v n),
             (match ke with | Option.none => (n : Int) | some v => min v n),
             st.getD 1) := by
  have hs0 : ¬ st.getD 1 = 0 := by omega
  have hsneg : ¬ st.getD 1 < 0 := by omega
  cases ks with
  | none =>
    cases ke with
    | none => simp [pySliceIndices, hs0, hsneg]
    | some w => simp [pySliceIndices, hs0, hsneg, not_lt_of_ge (hb2 w rfl)]
  | some v =>
    cases ke with
    | none => simp [pySliceIndices, hs0, hsneg, not_lt_of_ge (hb1 v rfl)]
    | some w =>
      simp [pySliceIndices, hs0, hsneg, not_lt_of_ge (hb1 v rfl),
        not_lt_of_ge (hb2 w rfl)]

/-- The ascending counterpart of a step −1 selection: the range from
`b + 1` to `a + 1` is the reverse of the range from `a` down to `b`. -/
theorem select_asc_eq_reverse_m1 (a b a2 b2 : Int)
    (ha : a2 = b + 1) (hb : b2 = a + 1) :
    pyRangeList a2 (pyRangeCount a2 b2 1) 1
      = (pyRangeList a (pyRangeCount a b (-1)) (-1)).reverse := by
  rw [pyRangeList_reverse]
  by_cases hba : b < a
  · have h1 : pyRangeCount a b (-1) = (a - b).toNat := by
      rw [pyRangeCount_neg a b (-1) (by omega) hba]
      have he : a - b - (-1) - 1 = a - b := by ring
      rw [he]
      norm_num [Int.fdiv_one]
    have h2 : pyRangeCount a2 b2 1 = (a - b).toNat := by
      rw [pyRangeCount_pos a2 b2 1 (by omega) (by omega)]
      have he : b2 - a2 + 1 - 1 = a - b := by omega
      rw [he, Int.fdiv_one]
    rw [h1, h2]
    have hx : a2 = a + (((a - b).toNat : Int) - 1) * (-1) := by omega
    rw [hx]
    norm_num
  · have h1 : pyRangeCount a b (-1) = 0 :=
      pyRangeCount_neg_empty a b (-1) (by omega) hba
    have h2 : pyRangeCount a2 b2 1 = 0 :=
      pyRangeCount_pos_empty a2 b2 1 (by omega) (by omega)
    rw [h1, h2]
    simp [pyRangeList]

/-- The ascending counterpart of a step < −1 selection: starting from the
last selected element with the negated step reproduces the selection in
reverse. -/
theorem select_asc_eq_reverse_lt (a b stp : Int) (hstp : stp < -1)
    (hba : b < a) :
    pyRangeList (a + ((pyRangeCount a b stp : Int) - 1) * stp)
        (pyRangeCount (a + ((pyRangeCount a b stp : Int) - 1) * stp) (a + 1)
          (-stp)) (-stp)
      = (pyRangeList a (pyRangeCount a b stp) stp).reverse := by
  rw [pyRangeList_reverse]
  have hs : 0 < -stp := by omega
  have hcnt : pyRangeCount a b stp = ((a - b + (-stp) - 1).fdiv (-stp)).toNat := by
    rw [pyRangeCount_neg a b stp (by omega) hba]
    have he : a - b - stp - 1 = a - b + (-stp) - 1 := by ring
    rw [he]
  obtain ⟨h1, h2, h3⟩ := pyRangeCount_neg_facts a b (-stp) hs hba
  set q := (a - b + (-stp) - 1).fdiv (-stp) with hq
  have hqc : ((pyRangeCount a b stp : Int)) = q := by
    rw [hcnt]
    omega
  have hlt : a + ((pyRangeCount a b stp : Int) - 1) * stp < a + 1 := by
    rw [hqc]
    have e1 : (q - 1) * stp ≤ 0 :=
      mul_nonpos_of_nonneg_of_nonpos (by omega) (by omega)
    linarith
  have hcnt2 : pyRangeCount (a + ((pyRangeCount a b stp : Int) - 1) * stp)
      (a + 1) (-stp) = pyRangeCount a b stp := by
    rw [pyRangeCount_pos _ _ _ hs hlt, hqc]
    have he : a + 1 - (a + (q - 1) * stp) + -stp - 1 = q * (-stp) := by
      ring
    rw [he, Int.fdiv_eq_ediv _ (le_of_lt hs), Int.mul_ediv_cancel _ (ne_of_gt hs),
      hcnt]
  rw [hcnt2]

/-- The last element of a nonempty descending range lies in `(b, a]`. -/
theorem pyRangeLast_bounds (a b stp : Int) (hstp : stp < -1) (hba : b < a) :
    b < a + ((pyRangeCount a b stp : Int) - 1) * stp
      ∧ a + ((pyRangeCount a b stp : Int) - 1) * stp ≤ a := by
  have hs : 0 < -stp := by omega
  have hcnt : pyRangeCount a b stp = ((a - b + (-stp) - 1).fdiv (-stp)).toNat := by
    rw [pyRangeCount_neg a b stp (by omega) hba]
    have he : a - b - stp - 1 = a - b + (-stp) - 1 := by ring
    rw [he]
  obtain ⟨h1, h2, h3⟩ := pyRangeCount_neg_facts a b (-stp) hs hba
  set q := (a - b + (-stp) - 1).fdiv (-stp) with hq
  have hqc : ((pyRangeCount a b stp : Int)) = q := by
    rw [hcnt]
    omega
  rw [hqc]
  constructor
  · have e1 : (q - 1) * stp = -(q * (-stp)) + (-stp) := by ring
    linarith
  · have e1 : (q - 1) * stp ≤ 0 :=
      mul_nonpos_of_nonneg_of_nonpos (by omega) (by omega)
    linarith

/-- C5 counterexample: the claim says the ascending slice selects the same
elements *in the same relative order*.  For `slice(None, None, -1)` over a
length-2 sequence the original selects `[1, 0]` while the ascending
normalization `slice(None, None, 1)` selects `[0, 1]`: the same elements in
*reversed* order. -/
theorem c5_counterexample :
    sliceSelect ⟨Option.none, Option.none, some (-1)⟩ 2 = .ok [1, 0]
      ∧ slice_to_ascending_slice ⟨Option.none, Option.none, some (-1)⟩ 2
          = .ok ⟨Option.none, Option.none, some 1⟩
      ∧ sliceSelect ⟨Option.none, Option.none, some 1⟩ 2 = .ok [0, 1]
      ∧ ([0, 1] : List Int) ≠ [1, 0] :=
  ⟨rfl, rfl, rfl, by decide⟩

/-- C5 amended: for every slice whose start and stop are `None` or
non-negative, whose step is nonzero (a zero step raises `ValueError`), and
which — when the step is < −1 — selects at least one element (an empty
selection raises `StopIteration` from `next(reversed(...))`),
`slice_to_ascending_slice` returns a slice with ascending (positive-step)
integers selecting exactly the same elements: in the original order for a
positive/None step, and in reversed (ascending) order for a negative
step. -/
theorem c5_slice_to_ascending (key : PySlice) (size : Nat)
    (hb1 : ∀ s, key.start = some s → 0 ≤ s)
    (hb2 : ∀ s, key.stop = some s → 0 ≤ s)
    (hstep0 : key.step ≠ some 0)
    (hne : ∀ stp, key.step = some stp → stp < -1 →
      sliceSelect key size ≠ .ok []) :
    ∃ asc sel,
      slice_to_ascending_slice key size = .ok asc
        ∧ 0 < asc.step.getD 1
        ∧ sliceSelect key size = .ok sel
        ∧ sliceSelect asc size
            = .ok (if key.step.getD 1 < 0 then sel.reverse else sel) := by
  obtain ⟨ks, ke, kstep⟩ := key
  cases kstep with
  | none =>
    obtain ⟨A, B, hres⟩ : ∃ A B,
        pySliceIndices ⟨ks, ke, Option.none⟩ size = .ok (A, B, 1) :=
      ⟨_, _, pySliceIndices_pos_facts ks ke Option.none size (by norm_num) hb1 hb2⟩
    refine ⟨⟨ks, ke, Option.none⟩, pyRangeList A (pyRangeCount A B 1) 1,
      rfl, by norm_num, ?_, ?_⟩
    · simp [sliceSelect, hres]
    · simp [sliceSelect, hres]
  | some stp =>
    have hs0 : stp ≠ 0 := by
      intro h
      exact hstep0 (by rw [h])
    by_cases hpos : stp > 0
    · obtain ⟨A, B, hres⟩ : ∃ A B,
          pySliceIndices ⟨ks, ke, some stp⟩ size = .ok (A, B, stp) :=
        ⟨_, _, pySliceIndices_pos_facts ks ke (some stp) size (by simpa) hb1 hb2⟩
      refine ⟨⟨ks, ke, some stp⟩, pyRangeList A (pyRangeCount A B stp) stp,
        by simp [slice_to_ascending_slice, hpos], by simpa, ?_, ?_⟩
      · simp [sliceSelect, hres]
      · simp [sliceSelect, hres, not_lt_of_gt hpos]
    · by_cases hm1 : stp = -1
      · subst hm1
        obtain ⟨a, b, hres, hbge, hale, hka, hkb⟩ :=
          pySliceIndices_neg_facts ks ke (-1) size (by norm_num) hb1 hb2
        rcases ks with _ | s
        · rcases ke with _ | w
          · -- slice(None, None, -1) → slice(None, None, 1)
            have ha2 : a = (size : Int) - 1 := hka
            have hb2' : b = -1 := hkb
            have hresa := pySliceIndices_pos_facts Option.none Option.none
              (some 1) size (by norm_num) (by intro v hv; cases hv)
              (by intro v hv; cases hv)
            refine ⟨⟨Option.none, Option.none, some 1⟩,
              pyRangeList a (pyRangeCount a b (-1)) (-1),
              by simp [slice_to_ascending_slice], by norm_num,
              by simp [sliceSelect, hres], ?_⟩
            rw [if_pos (by norm_num : ((some (-1) : Option Int).getD 1) < 0)]
            have hgoal := select_asc_eq_reverse_m1 a b 0 (size : Int)
              (by omega) (by omega)
            simp only [sliceSelect, hresa, Option.getD_some]
            rw [hgoal]
          · -- slice(None, w, -1) → slice(w+1, None, 1)
            have hw0 : 0 ≤ w := hb2 w rfl
            have ha2 : a = (size : Int) - 1 := hka
            have hb2' : b = min w ((size : Int) - 1) := hkb
            have hresa := pySliceIndices_pos_facts (some (w + 1)) Option.none
              (some 1) size (by norm_num)
              (by intro v hv; cases hv; omega) (by intro v hv; cases hv)
            refine ⟨⟨some (w + 1), Option.none, some 1⟩,
              pyRangeList a (pyRangeCount a b (-1)) (-1),
              by simp [slice_to_ascending_slice], by norm_num,
              by simp [sliceSelect, hres], ?_⟩
            rw [if_pos (by norm_num : ((some (-1) : Option Int).getD 1) < 0)]
            have hgoal := select_asc_eq_reverse_m1 a b (min (w + 1) (size : Int))
              (size : Int) (by omega) (by omega)
            simp only [sliceSelect, hresa, Option.getD_some]
            rw [hgoal]
        · have hs0' : 0 ≤ s := hb1 s rfl
          rcases ke with _ | w
          · -- slice(s, None, -1) → slice(None, s+1, 1)
            have ha2 : a = min s ((size : Int) - 1) := hka
            have hb2' : b = -1 := hkb
            have hresa := pySliceIndices_pos_facts Option.none (some (s + 1))
              (some 1) size (by norm_num) (by intro v hv; cases hv)
              (by intro v hv; cases hv; omega)
            refine ⟨⟨Option.none, some (s + 1), some 1⟩,
              pyRangeList a (pyRangeCount a b (-1)) (-1),
              by simp [slice_to_ascending_slice], by norm_num,
              by simp [sliceSelect, hres], ?_⟩
            rw [if_pos (by norm_num : ((some (-1) : Option Int).getD 1) < 0)]
            have hgoal := select_asc_eq_reverse_m1 a b 0 (min (s + 1) (size : Int))
              (by omega) (by omega)
            simp only [sliceSelect, hresa, Option.getD_some]
            rw [hgoal]
          · -- slice(s, w, -1) → slice(w+1, s+1, 1)
            have hw0 : 0 ≤ w := hb2 w rfl
            have ha2 : a = min s ((size : Int) - 1) := hka
            have hb2' : b = min w ((size : Int) - 1) := hkb
            have hresa := pySliceIndices_pos_facts (some (w + 1)) (some (s + 1))
              (some 1) size (by norm_num)
              (by intro v hv; cases hv; omega) (by intro v hv; cases hv; omega)
            refine ⟨⟨some (w + 1), some (s + 1), some 1⟩,
              pyRangeList a (pyRangeCount a b (-1)) (-1),
              by simp [slice_to_ascending_slice], by norm_num,
              by simp [sliceSelect, hres], ?_⟩
            rw [if_pos (by norm_num : ((some (-1) : Option Int).getD 1) < 0)]
            have hgoal := select_asc_eq_reverse_m1 a b (min (w + 1) (size : Int))
              (min (s + 1) (size : Int)) (by omega) (by omega)
            simp only [sliceSelect, hresa, Option.getD_some]
            rw [hgoal]
      · -- step < -1
        have hlt1 : stp < -1 := by omega
        obtain ⟨a, b, hres, hbge, hale, hka, hkb⟩ :=
          pySliceIndices_neg_facts ks ke stp size (by omega) hb1 hb2
        have hsel : sliceSelect ⟨ks, ke, some stp⟩ size
            = .ok (pyRangeList a (pyRangeCount a b stp) stp) := by
          simp [sliceSelect, hres]
        have hba : b < a := by
          by_contra hc
          apply hne stp rfl hlt1
          rw [hsel, pyRangeCount_neg_empty a b stp (by omega) hc]
          rfl
        have hfacts := pyRangeCount_neg_facts a b (-stp) (by omega) hba
        have hcntq : pyRangeCount a b stp
            = ((a - b + (-stp) - 1).fdiv (-stp)).toNat := by
          rw [pyRangeCount_neg a b stp (by omega) hba]
          have he : a - b - stp - 1 = a - b + (-stp) - 1 := by ring
          rw [he]
        have hcnt0 : ¬ pyRangeCount a b stp = 0 := by
          rw [hcntq]
          omega
        obtain ⟨hlastb, hlasta⟩ := pyRangeLast_bounds a b stp hlt1 hba
        have hlastok : pyRangeLast a b stp
            = .ok (a + ((pyRangeCount a b stp : Int) - 1) * stp) := by
          simp only [pyRangeLast]
          rw [if_neg hcnt0]
        have hA2 : min (a + ((pyRangeCount a b stp : Int) - 1) * stp) (size : Int)
            = a + ((pyRangeCount a b stp : Int) - 1) * stp := by
          omega
        rcases ks with _ | s
        · -- start None: ascending stop is None, resolving to size = a + 1
          have ha2 : a = (size : Int) - 1 := hka
          have hasc : slice_to_ascending_slice
              ⟨Option.none, ke, some stp⟩ size
              = .ok ⟨some (a + ((pyRangeCount a b stp : Int) - 1) * stp),
                  Option.none, some (-stp)⟩ := by
            simp [slice_to_ascending_slice, hpos, hm1, hres, hlastok]
          have hresa := pySliceIndices_pos_facts
            (some (a + ((pyRangeCount a b stp : Int) - 1) * stp)) Option.none
            (some (-stp)) size (by simpa using (by omega : (0 : Int) < -stp))
            (by intro v hv; cases hv; omega)
            (by intro v hv; cases hv)
          refine ⟨_, pyRangeList a (pyRangeCount a b stp) stp, hasc,
            by simpa using (by omega : (0 : Int) < -stp), hsel, ?_⟩
          rw [if_pos (by simpa using (by omega : stp < 0))]
          simp only [sliceSelect, hresa, Option.getD_some]
          rw [hA2, show (size : Int) = a + 1 by omega,
            select_asc_eq_reverse_lt a b stp hlt1 hba]
        · -- start s ≥ 0: ascending stop is s+1, resolving to a + 1
          have hs1 : 0 ≤ s := hb1 s rfl
          have ha2 : a = min s ((size : Int) - 1) := hka
          have hasc : slice_to_ascending_slice
              ⟨some s, ke, some stp⟩ size
              = .ok ⟨some (a + ((pyRangeCount a b stp : Int) - 1) * stp),
                  some (s + 1), some (-stp)⟩ := by
            simp [slice_to_ascending_slice, hpos, hm1, hres, hlastok]
          have hresa := pySliceIndices_pos_facts
            (some (a + ((pyRangeCount a b stp : Int) - 1) * stp)) (some (s + 1))
            (some (-stp)) size (by simpa using (by omega : (0 : Int) < -stp))
            (by intro v hv; cases hv; omega)
            (by intro v hv; cases hv; omega)
          refine ⟨_, pyRangeList a (pyRangeCount a b stp) stp, hasc,
            by simpa using (by omega : (0 : Int) < -stp), hsel, ?_⟩
          rw [if_pos (by simpa using (by omega : stp < 0))]
          simp only [sliceSelect, hresa, Option.getD_some]
          rw [hA2, show min (s + 1) (size : Int) = a + 1 by omega,
            select_asc_eq_reverse_lt a b stp hlt1 hba]

/-- C5 witness: the amended theorem applied to `slice(6, 1, -2)` over a
length-10 sequence (original selection `[6, 4, 2]`). -/
theorem c5_witness :
    ∃ asc sel,
      slice_to_ascending_slice ⟨some 6, some 1, some (-2)⟩ 10 = .ok asc
        ∧ 0 < asc.step.getD 1
        ∧ sliceSelect ⟨some 6, some 1, some (-2)⟩ 10 = .ok sel
        ∧ sliceSelect asc 10
            = .ok (if ((⟨some 6, some 1, some (-2)⟩ : PySlice).step.getD 1) < 0
                then sel.reverse else sel) :=
  c5_slice_to_ascending ⟨some 6, some 1, some (-2)⟩ 10
    (by intro s hv; cases hv; norm_num)
    (by intro s hv; cases hv; norm_num)
    (by decide)
    (by intro stp hv hlt h
        rw [show sliceSelect ⟨some 6, some 1, some (-2)⟩ 10
            = .ok ([6, 4, 2] : List Int) from rfl] at h
        exact absurd (Except.ok.inj h) (by decide))

--------------------------------------------------------------------------
-- Claim C6: sortable/hashable duplicate detection agree
--------------------------------------------------------------------------

section DupLemmas

variable {α : Type} [DecidableEq α]

theorem lookupD_nil (k : α) : lookupD ([] : List (α × Nat)) k = Option.none :=
  rfl

theorem lookupD_cons (h : α × Nat) (t : List (α × Nat)) (k : α) :
    lookupD (h :: t) k = if h.1 = k then some h.2 else lookupD t k := by
  simp only [lookupD, List.find?_cons]
  by_cases hh : h.1 = k
  · simp [hh]
  · simp [hh]

theorem lookupD_append_single (d : List (α × Nat)) (x : α × Nat) (k : α) :
    lookupD (d ++ [x]) k
      = match lookupD d k with
        | some v => some v
        | Option.none => if x.1 = k then some x.2 else Option.none := by
  induction d with
  | nil => simp [lookupD_cons, lookupD_nil]
  | cons h t ih =>
    rw [List.cons_append, lookupD_cons, lookupD_cons]
    by_cases hh : h.1 = k
    · simp [hh]
    · simp [hh, ih]

theorem lookupD_map_overwrite (d : List (α × Nat)) (k : α) (v : Nat) (key : α) :
    lookupD (d.map (fun p => if p.1 = k then (k, v) else p)) key
      = if key = k ∧ (lookupD d k).isSome then some v else lookupD d key := by
  induction d with
  | nil => simp [lookupD_nil]
  | cons h t ih =>
    rw [List.map_cons, lookupD_cons, lookupD_cons, lookupD_cons]
    by_cases hh : h.1 = k <;> by_cases hk : key = k <;>
      by_cases hk2 : h.1 = key <;>
      simp_all

theorem lookupD_dictSet (d : List (α × Nat)) (k : α) (v : Nat) (key : α) :
    lookupD (dictSet d k v) key = if key = k then some v else lookupD d key := by
  unfold dictSet
  by_cases hp : (lookupD d k).isSome
  · rw [if_pos hp, lookupD_map_overwrite]
    by_cases hk : key = k <;> simp [hk, hp]
  · rw [if_neg hp, lookupD_append_single]
    have h0 : lookupD d k = Option.none := by
      cases hc : lookupD d k
      · rfl
      · rw [hc] at hp
        simp at hp
    by_cases hk : key = k
    · subst hk
      simp [h0]
    · cases hcase : lookupD d key
      · simp only [hcase]
        rw [if_neg (fun hc : k = key => hk hc.symm), if_neg hk]
      · simp only [hcase]
        rw [if_neg hk]

theorem keys_append_single (d : List (α × Nat)) (x : α × Nat) :
    (d ++ [x]).map Prod.fst = d.map Prod.fst ++ [x.1] := by
  simp

theorem keys_dictSet (d : List (α × Nat)) (k : α) (v : Nat) :
    (dictSet d k v).map Prod.fst
      = if (lookupD d k).isSome then d.map Prod.fst
        else d.map Prod.fst ++ [k] := by
  unfold dictSet
  by_cases hp : (lookupD d k).isSome
  · rw [if_pos hp, if_pos hp, List.map_map]
    apply List.map_congr_left
    intro p _
    by_cases hh : p.1 = k
    · simp [hh, Function.comp]
    · simp [hh, Function.comp]
  · rw [if_neg hp, if_neg hp]
    simp

theorem lookupD_eq_some_mem_keys (d : List (α × Nat)) (k : α) (i : Nat)
    (h : lookupD d k = some i) : k ∈ d.map Prod.fst := by
  induction d with
  | nil => simp [lookupD_nil] at h
  | cons hd t ih =>
    rw [lookupD_cons] at h
    by_cases hc : hd.1 = k
    · simp [List.map_cons, hc.symm]
    · rw [if_neg hc] at h
      simp [List.map_cons]
      exact Or.inr (by simpa using ih h)

theorem mem_values_iff_lookupD (d : List (α × Nat))
    (hnd : (d.map Prod.fst).Nodup) (i : Nat) :
    i ∈ d.map Prod.snd ↔ ∃ v, lookupD d v = some i := by
  induction d with
  | nil => simp [lookupD_nil]
  | cons h t ih =>
    simp only [List.map_cons, List.nodup_cons] at hnd
    obtain ⟨hh, ht⟩ := hnd
    simp only [List.map_cons, List.mem_cons]
    constructor
    · rintro (he | hm)
      · exact ⟨h.1, by rw [lookupD_cons, if_pos rfl, he]⟩
      · obtain ⟨v, hv⟩ := (ih ht).mp hm
        refine ⟨v, ?_⟩
        rw [lookupD_cons, if_neg ?_]
        · exact hv
        · intro hc
          exact hh (hc ▸ lookupD_eq_some_mem_keys t v i hv)
    · rintro ⟨v, hv⟩
      rw [lookupD_cons] at hv
      by_cases hc : h.1 = v
      · rw [if_pos hc] at hv
        exact Or.inl (Option.some.inj hv).symm
      · rw [if_neg hc] at hv
        exact Or.inr ((ih ht).mpr ⟨v, hv⟩)

theorem setAll_length (fs : List Bool) (idxs : List Nat) (b : Bool) :
    (setAll fs idxs b).length = fs.length := by
  induction idxs generalizing fs with
  | nil => rfl
  | cons h t ih =>
    have hstep : setAll fs (h :: t) b = setAll (fs.set h b) t b := rfl
    rw [hstep, ih, List.length_set]

theorem setAll_getElem? (fs : List Bool) (idxs : List Nat) (b : Bool) (i : Nat) :
    (setAll fs idxs b)[i]?
      = if i ∈ idxs ∧ i < fs.length then some b else fs[i]? := by
  induction idxs generalizing fs with
  | nil => simp [setAll]
  | cons h t ih =>
    have hstep : setAll fs (h :: t) b = setAll (fs.set h b) t b := rfl
    rw [hstep, ih, List.length_set]
    by_cases hmem : i ∈ t
    · by_cases hlen : i < fs.length
      · rw [if_pos ⟨hmem, hlen⟩, if_pos ⟨List.mem_cons_of_mem h hmem, hlen⟩]
      · rw [if_neg (fun hc => hlen hc.2), if_neg (fun hc => hlen hc.2),
          List.getElem?_set]
        by_cases hhi : h = i
        · rw [if_pos hhi, if_neg (by omega), List.getElem?_eq_none (by omega)]
        · rw [if_neg hhi]
    · by_cases hhi : h = i
      · subst hhi
        rw [if_neg (fun hc => hmem hc.1), List.getElem?_set, if_pos rfl]
        by_cases hlen : h < fs.length
        · rw [if_pos hlen, if_pos ⟨List.mem_cons_self h t, hlen⟩]
        · rw [if_neg hlen, if_neg (fun hc => hlen hc.2),
            List.getElem?_eq_none (by omega)]
      · rw [if_neg (fun hc => hmem hc.1), List.getElem?_set, if_neg hhi,
          if_neg (fun hc => ?_)]
        rcases List.mem_cons.mp hc.1 with h1 | h1
        · exact hhi h1.symm
        · exact hmem h1

theorem lookupD_isSome_of_mem_keys (d : List (α × Nat)) (k : α)
    (h : k ∈ d.map Prod.fst) : (lookupD d k).isSome = true := by
  induction d with
  | nil => simp at h
  | cons hd t ih =>
    rw [lookupD_cons]
    by_cases hc : hd.1 = k
    · rw [if_pos hc]; rfl
    · rw [if_neg hc]
      simp only [List.map_cons, List.mem_cons] at h
      rcases h with h | h
      · exact absurd h.symm hc
      · exact ih h

theorem exists_first_occ (a : List α) (v : α) (j0 : Nat)
    (hj : a[j0]? = some v) :
    ∃ k, k ≤ j0 ∧ a[k]? = some v ∧ ∀ j, j < k → a[j]? ≠ some v := by
  have hex : ∃ j, a[j]? = some v := ⟨j0, hj⟩
  exact ⟨Nat.find hex, Nat.find_min' hex hj, Nat.find_spec hex,
    fun j hlt => Nat.find_min hex hlt⟩

theorem first_occ_unique (a : List α) (v : α) (k1 k2 : Nat)
    (h1 : a[k1]? = some v) (h1f : ∀ j, j < k1 → a[j]? ≠ some v)
    (h2 : a[k2]? = some v) (h2f : ∀ j, j < k2 → a[j]? ≠ some v) :
    k1 = k2 := by
  rcases lt_trichotomy k1 k2 with h | h | h
  · exact absurd h1 (h2f k1 h)
  · exact h
  · exact absurd h2 (h1f k2 h)

theorem hasEarlierB_iff (a : List α) (i : Nat) :
    hasEarlierB a i = true ↔ ∃ j, j < i ∧ a[j]? = a[i]? := by
  simp [hasEarlierB, List.any_eq_true, List.mem_range]

theorem hasLaterB_iff (a : List α) (i : Nat) :
    hasLaterB a i = true ↔ ∃ j, i < j ∧ j < a.length ∧ a[j]? = a[i]? := by
  simp only [hasLaterB, List.any_eq_true, List.mem_range, decide_eq_true_eq]
  constructor
  · rintro ⟨j, hj, hij, he⟩
    exact ⟨j, hij, hj, he⟩
  · rintro ⟨j, hij, hj, he⟩
    exact ⟨j, hj, hij, he⟩

theorem hasEarlierB_eq_false_iff (a : List α) (i : Nat) :
    hasEarlierB a i = false ↔ ∀ j, j < i → a[j]? ≠ a[i]? := by
  constructor
  · intro h j hj he
    have h2 : hasEarlierB a i = true := (hasEarlierB_iff a i).mpr ⟨j, hj, he⟩
    rw [h] at h2
    exact Bool.noConfusion h2
  · intro h
    cases hE : hasEarlierB a i
    · rfl
    · obtain ⟨j, hj, he⟩ := (hasEarlierB_iff a i).mp hE
      exact absurd he (h j hj)

theorem hasLaterB_eq_false_iff (a : List α) (i : Nat) :
    hasLaterB a i = false ↔ ∀ j, i < j → j < a.length → a[j]? ≠ a[i]? := by
  constructor
  · intro h j hij hjn he
    have h2 : hasLaterB a i = true := (hasLaterB_iff a i).mpr ⟨j, hij, hjn, he⟩
    rw [h] at h2
    exact Bool.noConfusion h2
  · intro h
    cases hL : hasLaterB a i
    · rfl
    · obtain ⟨j, hij, hjn, he⟩ := (hasLaterB_iff a i).mp hL
      exact absurd he (h j hij hjn)

theorem noEarlier_noLater (a : List α)
    (h : ∀ i, i < a.length → hasEarlierB a i = false)
    (i : Nat) : hasLaterB a i = false := by
  rw [hasLaterB_eq_false_iff]
  intro j hij hjn he
  exact ((hasEarlierB_eq_false_iff a j).mp (h j hjn)) i hij he.symm

theorem dupInv_step (a : List α) (m : Nat) (x : α)
    (st : List (α × Nat) × List (α × Nat) × List (α × Nat) × List Bool)
    (hx : a[m]? = some x) (hinv : DupInv a m st) :
    DupInv a (m + 1) (dupStep st (m, x)) := by
  obtain ⟨u2f, d2f, d2l, flags⟩ := st
  obtain ⟨hu, hf, hl, hfk, hlk, hlen, hflags⟩ := hinv
  have hm : m < a.length := by
    by_contra hcon
    rw [List.getElem?_eq_none (by omega)] at hx
    exact Option.noConfusion hx
  cases hseen : lookupD u2f x with
  | none =>
    have hnoprev : ∀ j, j < m → a[j]? ≠ some x := by
      intro j hj hje
      obtain ⟨k, hkle, hk, hkf⟩ := exists_first_occ a x j hje
      have hlk2 : lookupD u2f x = some k :=
        (hu x k).mpr ⟨lt_of_le_of_lt hkle hj, hk, hkf⟩
      rw [hseen] at hlk2
      exact Option.noConfusion hlk2
    have hstep : dupStep (u2f, d2f, d2l, flags) (m, x)
        = (u2f ++ [(x, m)], d2f, d2l, flags) := by
      simp [dupStep, hseen]
    rw [hstep]
    have hu' : ∀ v k, lookupD (u2f ++ [(x, m)]) v = some k ↔
        (k < m + 1 ∧ a[k]? = some v ∧ ∀ j, j < k → a[j]? ≠ some v) := by
      intro v k
      rw [lookupD_append_single]
      cases hd : lookupD u2f v with
      | some k0 =>
        obtain ⟨h0m, h0a, h0f⟩ := (hu v k0).mp hd
        constructor
        · intro he
          obtain rfl : k0 = k := Option.some.inj he
          exact ⟨by omega, h0a, h0f⟩
        · rintro ⟨hk1, hk2, hk3⟩
          exact congrArg some (first_occ_unique a v k0 k h0a h0f hk2 hk3)
      | none =>
        have hnov : ∀ kk, ¬(kk < m ∧ a[kk]? = some v ∧
            ∀ j, j < kk → a[j]? ≠ some v) := by
          intro kk hc
          have h2 := (hu v kk).mpr hc
          rw [hd] at h2
          exact Option.noConfusion h2
        by_cases hxv : x = v
        · subst hxv
          have hcond : ((x, m).1 = x) := rfl
          rw [if_pos hcond]
          constructor
          · intro he
            obtain rfl : m = k := Option.some.inj he
            exact ⟨by omega, hx, hnoprev⟩
          · rintro ⟨hk1, hk2, hk3⟩
            exact congrArg some (first_occ_unique a x m k hx hnoprev hk2 hk3)
        · rw [if_neg (show ¬((x, m).1 = v) from hxv)]
          constructor
          · intro he
            exact Option.noConfusion he
          · rintro ⟨hk1, hk2, hk3⟩
            exfalso
            rcases Nat.lt_succ_iff_lt_or_eq.mp hk1 with h | h
            · exact hnov k ⟨h, hk2, hk3⟩
            · subst h
              rw [hx] at hk2
              exact hxv (Option.some.inj hk2)
    have hf' : ∀ v k, lookupD d2f v = some k ↔
        ((∃ i2, i2 < m + 1 ∧ a[i2]? = some v ∧ ∃ i1, i1 < i2 ∧ a[i1]? = some v)
          ∧ k < m + 1 ∧ a[k]? = some v ∧ ∀ j, j < k → a[j]? ≠ some v) := by
      intro v k
      rw [hf v k]
      constructor
      · rintro ⟨⟨i2, hi2, hai2, i1, hi1, hai1⟩, hk, hak, hkf⟩
        exact ⟨⟨i2, by omega, hai2, i1, hi1, hai1⟩, by omega, hak, hkf⟩
      · rintro ⟨⟨i2, hi2, hai2, i1, hi1, hai1⟩, hk, hak, hkf⟩
        have hvx : ¬ v = x := by
          intro hc
          exact hnoprev i1 (by omega) (by rw [hai1, hc])
        have hi2' : i2 < m := by
          rcases Nat.lt_succ_iff_lt_or_eq.mp hi2 with h | h
          · exact h
          · exfalso
            subst h
            rw [hx] at hai2
            exact hvx (Option.some.inj hai2).symm
        have hki1 : k ≤ i1 := by
          by_contra hcon
          exact hkf i1 (by omega) hai1
        exact ⟨⟨i2, hi2', hai2, i1, hi1, hai1⟩, by omega, hak, hkf⟩
    have hl' : ∀ v k, lookupD d2l v = some k ↔
        (k < m + 1 ∧ a[k]? = some v ∧ (∃ i1, i1 < k ∧ a[i1]? = some v)
          ∧ ∀ j, k < j → j < m + 1 → a[j]? ≠ some v) := by
      intro v k
      rw [hl v k]
      constructor
      · rintro ⟨hk, hak, ⟨i1, hi1, hai1⟩, hlast⟩
        refine ⟨by omega, hak, ⟨i1, hi1, hai1⟩, ?_⟩
        intro j hkj hjm1
        rcases Nat.lt_succ_iff_lt_or_eq.mp hjm1 with h | h
        · exact hlast j hkj h
        · subst h
          rw [hx]
          intro hc
          have hvx : x = v := Option.some.inj hc
          exact hnoprev k hk (by rw [hak, hvx])
      · rintro ⟨hk, hak, ⟨i1, hi1, hai1⟩, hlast⟩
        have hk' : k < m := by
          rcases Nat.lt_succ_iff_lt_or_eq.mp hk with h | h
          · exact h
          · exfalso
            subst h
            rw [hx] at hak
            have hvx : x = v := Option.some.inj hak
            exact hnoprev i1 (by omega) (by rw [hai1, ← hvx])
        exact ⟨hk', hak, ⟨i1, hi1, hai1⟩,
          fun j hkj hjm => hlast j hkj (by omega)⟩
    have hflags' : ∀ i, i < a.length →
        flags[i]? = some (decide (i < m + 1 ∧ ∃ j, j < i ∧ a[j]? = a[i]?)) := by
      intro i hi
      rw [hflags i hi]
      congr 1
      rw [decide_eq_decide]
      constructor
      · rintro ⟨h1, h2⟩
        exact ⟨by omega, h2⟩
      · rintro ⟨h1, h2⟩
        refine ⟨?_, h2⟩
        rcases Nat.lt_succ_iff_lt_or_eq.mp h1 with h | h
        · exact h
        · exfalso
          subst h
          obtain ⟨j, hj, hje⟩ := h2
          exact hnoprev j hj (by rw [hje, hx])
    exact ⟨hu', hf', hl', hfk, hlk, hlen, hflags'⟩
  | some first =>
    obtain ⟨hfm, hfa, hff⟩ := (hu x first).mp hseen
    have hu' : ∀ v k, lookupD u2f v = some k ↔
        (k < m + 1 ∧ a[k]? = some v ∧ ∀ j, j < k → a[j]? ≠ some v) := by
      intro v k
      rw [hu v k]
      constructor
      · rintro ⟨h1, h2, h3⟩
        exact ⟨by omega, h2, h3⟩
      · rintro ⟨h1, h2, h3⟩
        refine ⟨?_, h2, h3⟩
        rcases Nat.lt_succ_iff_lt_or_eq.mp h1 with h | h
        · exact h
        · exfalso
          subst h
          rw [hx] at h2
          have hvx : x = v := Option.some.inj h2
          exact h3 first hfm (by rw [hfa, hvx])
    have hf' : ∀ v k,
        lookupD (if (lookupD d2f x).isSome then d2f else d2f ++ [(x, first)]) v
          = some k ↔
        ((∃ i2, i2 < m + 1 ∧ a[i2]? = some v ∧ ∃ i1, i1 < i2 ∧ a[i1]? = some v)
          ∧ k < m + 1 ∧ a[k]? = some v ∧ ∀ j, j < k → a[j]? ≠ some v) := by
      intro v k
      by_cases hp : (lookupD d2f x).isSome
      · rw [if_pos hp, hf v k]
        constructor
        · rintro ⟨⟨i2, hi2, hai2, i1, hi1, hai1⟩, hk, hak, hkf⟩
          exact ⟨⟨i2, by omega, hai2, i1, hi1, hai1⟩, by omega, hak, hkf⟩
        · rintro ⟨⟨i2, hi2, hai2, i1, hi1, hai1⟩, hk, hak, hkf⟩
          by_cases hvx : v = x
          · subst hvx
            obtain ⟨k0, hk0⟩ := Option.isSome_iff_exists.mp hp
            obtain ⟨hdup0, hk0m, hak0, hk0f⟩ := (hf v k0).mp hk0
            obtain rfl : k = k0 := first_occ_unique a v k k0 hak hkf hak0 hk0f
            exact ⟨hdup0, hk0m, hak0, hk0f⟩
          · have hi2' : i2 < m := by
              rcases Nat.lt_succ_iff_lt_or_eq.mp hi2 with h | h
              · exact h
              · exfalso
                subst h
                rw [hx] at hai2
                exact hvx (Option.some.inj hai2).symm
            have hki1 : k ≤ i1 := by
              by_contra hcon
              exact hkf i1 (by omega) hai1
            exact ⟨⟨i2, hi2', hai2, i1, hi1, hai1⟩, by omega, hak, hkf⟩
      · rw [if_neg hp, lookupD_append_single]
        cases hd : lookupD d2f v with
        | some k0 =>
          obtain ⟨hdup0, hk0m, hak0, hk0f⟩ := (hf v k0).mp hd
          obtain ⟨i2, hi2, hai2, i1, hi1, hai1⟩ := hdup0
          constructor
          · intro he
            obtain rfl : k0 = k := Option.some.inj he
            exact ⟨⟨i2, by omega, hai2, i1, hi1, hai1⟩, by omega, hak0, hk0f⟩
          · rintro ⟨_, hk, hak, hkf⟩
            exact congrArg some (first_occ_unique a v k0 k hak0 hk0f hak hkf)
        | none =>
          have hnov : ∀ kk,
              ¬((∃ i2, i2 < m ∧ a[i2]? = some v ∧ ∃ i1, i1 < i2 ∧ a[i1]? = some v)
                ∧ kk < m ∧ a[kk]? = some v ∧ ∀ j, j < kk → a[j]? ≠ some v) := by
            intro kk hc
            have h2 := (hf v kk).mpr hc
            rw [hd] at h2
            exact Option.noConfusion h2
          by_cases hvx : x = v
          · subst hvx
            have hcond : ((x, first).1 = x) := rfl
            rw [if_pos hcond]
            constructor
            · intro he
              obtain rfl : first = k := Option.some.inj he
              exact ⟨⟨m, by omega, hx, first, hfm, hfa⟩, by omega, hfa, hff⟩
            · rintro ⟨_, hk, hak, hkf⟩
              exact congrArg some (first_occ_unique a x first k hfa hff hak hkf)
          · rw [if_neg (show ¬((x, first).1 = v) from hvx)]
            constructor
            · intro he
              exact Option.noConfusion he
            · rintro ⟨⟨i2, hi2, hai2, i1, hi1, hai1⟩, hk, hak, hkf⟩
              have hi2' : i2 < m := by
                rcases Nat.lt_succ_iff_lt_or_eq.mp hi2 with h | h
                · exact h
                · exfalso
                  subst h
                  rw [hx] at hai2
                  exact hvx (Option.some.inj hai2)
              have hki1 : k ≤ i1 := by
                by_contra hcon
                exact hkf i1 (by omega) hai1
              exact absurd ⟨⟨i2, hi2', hai2, i1, hi1, hai1⟩,
                by omega, hak, hkf⟩ (hnov k)
    have hl' : ∀ v k, lookupD (dictSet d2l x m) v = some k ↔
        (k < m + 1 ∧ a[k]? = some v ∧ (∃ i1, i1 < k ∧ a[i1]? = some v)
          ∧ ∀ j, k < j → j < m + 1 → a[j]? ≠ some v) := by
      intro v k
      rw [lookupD_dictSet]
      by_cases hvx : v = x
      · subst hvx
        rw [if_pos rfl]
        constructor
        · intro he
          obtain rfl : m = k := Option.some.inj he
          refine ⟨by omega, hx, ⟨first, hfm, hfa⟩, ?_⟩
          intro j h1 h2
          exact absurd h2 (by omega)
        · rintro ⟨hk, hak, ⟨i1, hi1, hai1⟩, hlast⟩
          have hkm : k = m := by
            by_contra hcon
            exact hlast m (by omega) (by omega) hx
          rw [hkm]
      · rw [if_neg hvx, hl v k]
        constructor
        · rintro ⟨hk, hak, hex, hlast⟩
          refine ⟨by omega, hak, hex, ?_⟩
          intro j h1 h2
          rcases Nat.lt_succ_iff_lt_or_eq.mp h2 with h | h
          · exact hlast j h1 h
          · subst h
            rw [hx]
            intro hc
            exact hvx (Option.some.inj hc).symm
        · rintro ⟨hk, hak, hex, hlast⟩
          have hk' : k < m := by
            rcases Nat.lt_succ_iff_lt_or_eq.mp hk with h | h
            · exact h
            · exfalso
              subst h
              rw [hx] at hak
              exact hvx (Option.some.inj hak).symm
          exact ⟨hk', hak, hex, fun j h1 h2 => hlast j h1 (by omega)⟩
    have hfk' : (((if (lookupD d2f x).isSome then d2f
        else d2f ++ [(x, first)])).map Prod.fst).Nodup := by
      by_cases hp : (lookupD d2f x).isSome
      · rw [if_pos hp]
        exact hfk
      · rw [if_neg hp]
        have hxnot : x ∉ d2f.map Prod.fst :=
          fun hc => hp (lookupD_isSome_of_mem_keys d2f x hc)
        rw [keys_append_single]
        simp [List.nodup_append, hfk, hxnot]
    have hlk' : ((dictSet d2l x m).map Prod.fst).Nodup := by
      rw [keys_dictSet]
      by_cases hp2 : (lookupD d2l x).isSome
      · rw [if_pos hp2]
        exact hlk
      · rw [if_neg hp2]
        have hxnot : x ∉ d2l.map Prod.fst :=
          fun hc => hp2 (lookupD_isSome_of_mem_keys d2l x hc)
        simp [List.nodup_append, hlk, hxnot]
    have hflen : m < flags.length := by
      have h2 : flags.length = a.length := hlen
      omega
    have hflags' : ∀ i, i < a.length →
        (flags.set m true)[i]?
          = some (decide (i < m + 1 ∧ ∃ j, j < i ∧ a[j]? = a[i]?)) := by
      intro i hi
      rw [List.getElem?_set]
      by_cases hmi : m = i
      · subst hmi
        rw [if_pos rfl, if_pos hflen]
        have hprop : (m < m + 1 ∧ ∃ j, j < m ∧ a[j]? = a[m]?) :=
          ⟨by omega, first, hfm, by rw [hfa, hx]⟩
        rw [decide_eq_true hprop]
      · rw [if_neg hmi, hflags i hi]
        congr 1
        rw [decide_eq_decide]
        constructor
        · rintro ⟨h1, h2⟩
          exact ⟨by omega, h2⟩
        · rintro ⟨h1, h2⟩
          exact ⟨by omega, h2⟩
    have hstep : dupStep (u2f, d2f, d2l, flags) (m, x)
        = (u2f, (if (lookupD d2f x).isSome then d2f else d2f ++ [(x, first)]),
           dictSet d2l x m, flags.set m true) := by
      simp [dupStep, hseen]
    rw [hstep]
    exact ⟨hu', hf', hl', hfk', hlk', by simp [hlen], hflags'⟩

theorem dupInv_zero (a : List α) :
    DupInv a 0 (([] : List (α × Nat)), ([] : List (α × Nat)),
      ([] : List (α × Nat)), List.replicate a.length false) := by
  refine ⟨?_, ?_, ?_, by simp, by simp, by simp, ?_⟩
  · intro v k
    simp [lookupD_nil]
  · intro v k
    simp [lookupD_nil]
  · intro v k
    simp [lookupD_nil]
  · intro i hi
    rw [List.getElem?_replicate, if_pos hi]
    simp

theorem dupInv_fold (a : List α) :
    ∀ m, m ≤ a.length →
      DupInv a m ((a.enum.take m).foldl dupStep
        ([], [], [], List.replicate a.length false)) := by
  intro m
  induction m with
  | zero =>
    intro _
    simpa using dupInv_zero a
  | succ k ih =>
    intro hm
    have hk : k < a.length := by omega
    obtain ⟨x, hx⟩ : ∃ x, a[k]? = some x := by
      rw [List.getElem?_eq_getElem hk]
      exact ⟨_, rfl⟩
    have henum : a.enum[k]? = some (k, x) := by
      rw [List.getElem?_enum, hx]
      rfl
    rw [List.take_succ, henum, Option.toList_some, List.foldl_append,
      List.foldl_cons, List.foldl_nil]
    exact dupInv_step a k x _ hx (ih (by omega))

theorem dupInv_final (a : List α) :
    DupInv a a.length
      (a.enum.foldl dupStep ([], [], [], List.replicate a.length false)) := by
  have h := dupInv_fold a a.length le_rfl
  have heq : a.enum.take a.length = a.enum := by
    rw [← List.enum_length]
    exact List.take_length _
  rwa [heq] at h

theorem hashable_eq_spec (a : List α) (ef el : Bool) :
    _array_to_duplicated_hashable a ef el = dupSpecList a ef el := by
  have hinv := dupInv_final a
  unfold _array_to_duplicated_hashable
  rcases hfold : a.enum.foldl dupStep ([], [], [], List.replicate a.length false)
    with ⟨u2f, d2f, d2l, is_dupe⟩
  rw [hfold] at hinv
  obtain ⟨hu, hf, hl, hfk, hlk, hlen, hflags⟩ := hinv
  have hlen2 : is_dupe.length = a.length := hlen
  dsimp only
  apply List.ext_getElem?
  intro i
  by_cases hi : i < a.length
  · have hdupe : is_dupe[i]? = some (hasEarlierB a i) := by
      rw [hflags i hi]
      congr 1
      cases hE : hasEarlierB a i
      · apply decide_eq_false
        rintro ⟨_, hex⟩
        have h2 : hasEarlierB a i = true := (hasEarlierB_iff a i).mpr hex
        rw [hE] at h2
        exact Bool.noConfusion h2
      · exact decide_eq_true ⟨hi, (hasEarlierB_iff a i).mp hE⟩
    have hmem2f : i ∈ d2f.map Prod.snd ↔
        (hasEarlierB a i = false ∧ hasLaterB a i = true) := by
      rw [mem_values_iff_lookupD d2f hfk i]
      constructor
      · rintro ⟨v, hv⟩
        obtain ⟨⟨i2, hi2, hai2, i1, hi1, hai1⟩, hk, hak, hkf⟩ := (hf v i).mp hv
        constructor
        · rw [hasEarlierB_eq_false_iff]
          intro j hj he
          exact hkf j hj (by rw [he, hak])
        · rw [hasLaterB_iff]
          have hii1 : i ≤ i1 := by
            by_contra hcon
            exact hkf i1 (by omega) hai1
          exact ⟨i2, by omega, hi2, by rw [hai2, hak]⟩
      · rintro ⟨hE, hL⟩
        obtain ⟨j, hij, hjn, hje⟩ := (hasLaterB_iff a i).mp hL
        obtain ⟨v, hv⟩ : ∃ v, a[i]? = some v := by
          rw [List.getElem?_eq_getElem hi]
          exact ⟨_, rfl⟩
        refine ⟨v, (hf v i).mpr
          ⟨⟨j, hjn, by rw [hje, hv], i, hij, hv⟩, hi, hv, ?_⟩⟩
        intro j2 hj2 he2
        exact ((hasEarlierB_eq_false_iff a i).mp hE) j2 hj2 (by rw [he2, hv])
    have hmem2l : i ∈ d2l.map Prod.snd ↔
        (hasEarlierB a i = true ∧ hasLaterB a i = false) := by
      rw [mem_values_iff_lookupD d2l hlk i]
      constructor
      · rintro ⟨v, hv⟩
        obtain ⟨hk, hak, ⟨i1, hi1, hai1⟩, hlast⟩ := (hl v i).mp hv
        constructor
        · rw [hasEarlierB_iff]
          exact ⟨i1, hi1, by rw [hai1, hak]⟩
        · rw [hasLaterB_eq_false_iff]
          intro j hij hjn he
          exact hlast j hij hjn (by rw [he, hak])
      · rintro ⟨hE, hL⟩
        obtain ⟨v, hv⟩ : ∃ v, a[i]? = some v := by
          rw [List.getElem?_eq_getElem hi]
          exact ⟨_, rfl⟩
        obtain ⟨j, hj, hje⟩ := (hasEarlierB_iff a i).mp hE
        refine ⟨v, (hl v i).mpr ⟨hi, hv, ⟨j, hj, by rw [hje, hv]⟩, ?_⟩⟩
        intro j2 h1 h2 he2
        exact ((hasLaterB_eq_false_iff a i).mp hL) j2 h1 h2 (by rw [he2, hv])
    have hrhs : (dupSpecList a ef el)[i]? = some
        (if ef then
          (if el then hasEarlierB a i && hasLaterB a i else hasEarlierB a i)
         else
          (if el then hasLaterB a i
           else hasEarlierB a i || hasLaterB a i)) := by
      simp [dupSpecList, List.getElem?_range, hi]
    have hlenAf : (setAll is_dupe (d2l.map Prod.snd) false).length
        = a.length := by
      rw [setAll_length, hlen2]
    have hAf : (setAll is_dupe (d2l.map Prod.snd) false)[i]? =
        some (if hasEarlierB a i = true ∧ hasLaterB a i = false then false
              else hasEarlierB a i) := by
      rw [setAll_getElem?]
      by_cases hm2 : hasEarlierB a i = true ∧ hasLaterB a i = false
      · rw [if_pos ⟨hmem2l.mpr hm2, by omega⟩, if_pos hm2]
      · rw [if_neg (fun hc => hm2 (hmem2l.mp hc.1)), if_neg hm2, hdupe]
    have hSf1 : (setAll is_dupe (d2f.map Prod.snd) true)[i]? =
        some (if hasEarlierB a i = false ∧ hasLaterB a i = true then true
              else hasEarlierB a i) := by
      rw [setAll_getElem?]
      by_cases hm2 : hasEarlierB a i = false ∧ hasLaterB a i = true
      · rw [if_pos ⟨hmem2f.mpr hm2, by omega⟩, if_pos hm2]
      · rw [if_neg (fun hc => hm2 (hmem2f.mp hc.1)), if_neg hm2, hdupe]
    have hSf2 : (setAll (setAll is_dupe (d2l.map Prod.snd) false)
        (d2f.map Prod.snd) true)[i]? =
        some (if hasEarlierB a i = false ∧ hasLaterB a i = true then true
              else (if hasEarlierB a i = true ∧ hasLaterB a i = false
                    then false else hasEarlierB a i)) := by
      rw [setAll_getElem?]
      by_cases hm2 : hasEarlierB a i = false ∧ hasLaterB a i = true
      · rw [if_pos ⟨hmem2f.mpr hm2, by rw [hlenAf]; omega⟩, if_pos hm2]
      · rw [if_neg (fun hc => hm2 (hmem2f.mp hc.1)), if_neg hm2, hAf]
    cases ef <;> cases el <;>
      cases hE : hasEarlierB a i <;> cases hL : hasLaterB a i <;>
      simp [hrhs, hAf, hSf1, hSf2, hdupe, hE, hL]
  · have hlenL :
        (if ¬ ef then
          setAll (if el then setAll is_dupe (d2l.map Prod.snd) false
            else is_dupe) (d2f.map Prod.snd) true
         else (if el then setAll is_dupe (d2l.map Prod.snd) false
            else is_dupe)).length = a.length := by
      cases ef <;> cases el <;> simp [setAll_length, hlen2]
    have hlenR : (dupSpecList a ef el).length = a.length := by
      simp [dupSpecList]
    rw [List.getElem?_eq_none (by rw [hlenL]; omega),
      List.getElem?_eq_none (by rw [hlenR]; omega)]

end DupLemmas

theorem mem_enum_iff {β : Type} (l : List β) (p : Nat × β) :
    p ∈ l.enum ↔ l[p.1]? = some p.2 := by
  constructor
  · intro h
    obtain ⟨j, hj⟩ := List.mem_iff_getElem?.mp h
    rw [List.getElem?_enum] at hj
    cases hx : l[j]? with
    | none =>
      rw [hx] at hj
      exact Option.noConfusion hj
    | some x =>
      rw [hx] at hj
      have hp : (j, x) = p := Option.some.inj hj
      rw [← hp]
      exact hx
  · intro h
    apply List.mem_iff_getElem?.mpr
    refine ⟨p.1, ?_⟩
    rw [List.getElem?_enum, h]
    rfl

theorem enum_nodup {β : Type} (l : List β) : l.enum.Nodup := by
  apply List.Nodup.of_map Prod.fst
  rw [List.enum_map_fst]
  exact List.nodup_range _

theorem roll_1d_length {β : Type} (l : List β) (s : Int) :
    (roll_1d l s).length = l.length := by
  unfold roll_1d
  by_cases h : l.length ≤ 1
  · simp [h]
  · by_cases h2 : (Int.fmod s (l.length : Int)).toNat = 0
    · simp [h, h2]
    · simp [h, h2]

theorem roll_1d_one_getElem {β : Type} (l : List β) (k : Nat)
    (h2 : 2 ≤ l.length) (hk : k < l.length) :
    (roll_1d l 1)[k]? = if k = 0 then l[l.length - 1]? else l[k - 1]? := by
  unfold roll_1d
  rw [if_neg (by omega)]
  have hfm : Int.fmod 1 (l.length : Int) = 1 := by
    rw [Int.fmod_eq_emod _ (by omega)]
    exact Int.emod_eq_of_lt (by norm_num) (by exact_mod_cast h2)
  rw [hfm]
  rw [if_neg (by norm_num)]
  by_cases hk0 : k = 0
  · subst hk0
    rw [if_pos rfl]
    rw [List.getElem?_append_left (by simp [List.length_drop]; omega)]
    rw [List.getElem?_drop]
    congr 1
  · rw [if_neg hk0]
    rw [List.getElem?_append_right (by simp [List.length_drop]; omega)]
    rw [List.length_drop]
    have he : k - (l.length - (l.length - (1 : Int).toNat)) = k - 1 := by
      omega
    rw [he, List.getElem?_take, if_pos (by omega)]

theorem roll_1d_neg_one_getElem {β : Type} (l : List β) (k : Nat)
    (h2 : 2 ≤ l.length) (hk : k < l.length) :
    (roll_1d l (-1))[k]? = if k = l.length - 1 then l[0]? else l[k + 1]? := by
  unfold roll_1d
  rw [if_neg (by omega)]
  have hfm : Int.fmod (-1) (l.length : Int) = (l.length : Int) - 1 := by
    rw [Int.fmod_eq_emod _ (by omega)]
    have hstep : (-1 : Int) = (l.length : Int) - 1 + (l.length : Int) * (-1) := by
      ring
    rw [hstep, Int.add_mul_emod_self_left]
    exact Int.emod_eq_of_lt (by omega) (by omega)
  rw [hfm]
  have htn : ((l.length : Int) - 1).toNat = l.length - 1 := by
    omega
  rw [htn, if_neg (by omega)]
  have hdt : l.length - (l.length - 1) = 1 := by
    omega
  rw [hdt]
  by_cases hkl : k = l.length - 1
  · rw [if_pos hkl]
    rw [List.getElem?_append_right (by simp [List.length_drop]; omega)]
    rw [List.length_drop, hkl]
    have he : l.length - 1 - (l.length - 1) = 0 := by
      omega
    rw [he, List.getElem?_take, if_pos (by omega)]
  · rw [if_neg hkl]
    rw [List.getElem?_append_left (by simp [List.length_drop]; omega)]
    rw [List.getElem?_drop]
    congr 1
    omega

theorem getElem?_zipWith_of_some {β γ δ : Type} (f : β → γ → δ)
    (l1 : List β) (l2 : List γ) (i : Nat) (b : β) (c : γ)
    (h1 : l1[i]? = some b) (h2 : l2[i]? = some c) :
    (List.zipWith f l1 l2)[i]? = some (f b c) := by
  induction l1 generalizing l2 i with
  | nil => simp at h1
  | cons x xs ih =>
    cases l2 with
    | nil => simp at h2
    | cons y ys =>
      cases i with
      | zero =>
        simp only [List.getElem?_cons_zero] at h1 h2
        obtain rfl : x = b := Option.some.inj h1
        obtain rfl : y = c := Option.some.inj h2
        rw [List.zipWith_cons_cons, List.getElem?_cons_zero]
      | succ n =>
        simp only [List.getElem?_cons_succ] at h1 h2
        rw [List.zipWith_cons_cons, List.getElem?_cons_succ]
        exact ih ys n h1 h2

section SortLemmas

variable {α : Type} [LinearOrder α]

theorem sortedPairs_rel (a : List α) (k1 k2 : Nat) (p q : Nat × α)
    (hlt : k1 < k2)
    (hp : (List.insertionSort argsortKey a.enum)[k1]? = some p)
    (hq : (List.insertionSort argsortKey a.enum)[k2]? = some q) :
    argsortKey p q := by
  have hs : List.Sorted argsortKey (List.insertionSort argsortKey a.enum) :=
    List.sorted_insertionSort argsortKey a.enum
  obtain ⟨h1, e1⟩ := List.getElem?_eq_some.mp hp
  obtain ⟨h2, e2⟩ := List.getElem?_eq_some.mp hq
  have h := List.pairwise_iff_getElem.mp hs k1 k2 h1 h2 hlt
  rwa [e1, e2] at h

theorem mem_sort_enum_iff (a : List α) (p : Nat × α) :
    p ∈ List.insertionSort argsortKey a.enum ↔ a[p.1]? = some p.2 := by
  rw [(List.perm_insertionSort argsortKey a.enum).mem_iff]
  exact mem_enum_iff a p

theorem sort_enum_nodup (a : List α) :
    (List.insertionSort argsortKey a.enum).Nodup :=
  ((List.perm_insertionSort argsortKey a.enum).nodup_iff).mpr (enum_nodup a)

theorem sort_enum_length (a : List α) :
    (List.insertionSort argsortKey a.enum).length = a.length := by
  rw [(List.perm_insertionSort argsortKey a.enum).length_eq, List.enum_length]

theorem sorted_adj_eq_iff_hasEarlier (a : List α) (k : Nat) (p q : Nat × α)
    (hq : (List.insertionSort argsortKey a.enum)[k]? = some q)
    (hp : (List.insertionSort argsortKey a.enum)[k + 1]? = some p) :
    (p.2 = q.2) ↔ hasEarlierB a p.1 = true := by
  have hpa : a[p.1]? = some p.2 :=
    (mem_sort_enum_iff a p).mp (List.mem_iff_getElem?.mpr ⟨k + 1, hp⟩)
  have hqa : a[q.1]? = some q.2 :=
    (mem_sort_enum_iff a q).mp (List.mem_iff_getElem?.mpr ⟨k, hq⟩)
  constructor
  · intro he
    rw [hasEarlierB_iff]
    have hrel : argsortKey q p := sortedPairs_rel a k (k + 1) q p (by omega) hq hp
    have hne : q ≠ p := by
      intro hc
      subst hc
      have hinj : k = k + 1 :=
        List.getElem?_inj (List.getElem?_eq_some.mp hq).1 (sort_enum_nodup a)
          (hq.trans hp.symm)
      omega
    have hfst : q.1 < p.1 := by
      rcases (show q.2 < p.2 ∨ (q.2 = p.2 ∧ q.1 ≤ p.1) from hrel) with h | ⟨h1, h2⟩
      · rw [he] at h
        exact absurd h (lt_irrefl _)
      · have hne1 : q.1 ≠ p.1 := by
          intro hc
          exact hne (Prod.ext hc h1)
        omega
    refine ⟨q.1, hfst, ?_⟩
    rw [hqa, hpa, he]
  · intro hE
    obtain ⟨j, hj, hje⟩ := (hasEarlierB_iff a p.1).mp hE
    have hja : a[j]? = some p.2 := by
      rw [hje, hpa]
    obtain ⟨m, hm⟩ :=
      List.mem_iff_getElem?.mp ((mem_sort_enum_iff a (j, p.2)).mpr hja)
    have hmne : m ≠ k + 1 := by
      intro hc
      rw [hc, hp] at hm
      have h3 : p.1 = j := congrArg Prod.fst (Option.some.inj hm)
      omega
    have hmlt : m < k + 1 := by
      by_contra hcon
      have hrel := sortedPairs_rel a (k + 1) m p (j, p.2) (by omega) hp hm
      rcases (show p.2 < (j, p.2).2 ∨ (p.2 = (j, p.2).2 ∧ p.1 ≤ (j, p.2).1)
          from hrel) with h | ⟨h1, h2⟩
      · exact absurd h (lt_irrefl _)
      · have h2a : p.1 ≤ j := h2
        omega
    rcases Nat.lt_succ_iff_lt_or_eq.mp hmlt with hmk | hmk
    · have hrel1 := sortedPairs_rel a m k (j, p.2) q hmk hm hq
      have hrel2 := sortedPairs_rel a k (k + 1) q p (by omega) hq hp
      have hle1 : p.2 ≤ q.2 := by
        rcases (show (j, p.2).2 < q.2 ∨ ((j, p.2).2 = q.2 ∧ (j, p.2).1 ≤ q.1)
            from hrel1) with h | ⟨h1, _⟩
        · exact le_of_lt h
        · exact le_of_eq h1
      have hle2 : q.2 ≤ p.2 := by
        rcases (show q.2 < p.2 ∨ (q.2 = p.2 ∧ q.1 ≤ p.1) from hrel2)
            with h | ⟨h1, _⟩
        · exact le_of_lt h
        · exact le_of_eq h1
      exact (le_antisymm hle2 hle1).symm
    · subst hmk
      rw [hq] at hm
      have h4 : q = (j, p.2) := Option.some.inj hm
      rw [h4]

theorem sorted_head_noEarlier (a : List α) (p : Nat × α)
    (hp : (List.insertionSort argsortKey a.enum)[0]? = some p) :
    hasEarlierB a p.1 = false := by
  rw [hasEarlierB_eq_false_iff]
  intro j hj hje
  have hpa : a[p.1]? = some p.2 :=
    (mem_sort_enum_iff a p).mp (List.mem_iff_getElem?.mpr ⟨0, hp⟩)
  have hja : a[j]? = some p.2 := by
    rw [hje, hpa]
  obtain ⟨m, hm⟩ :=
    List.mem_iff_getElem?.mp ((mem_sort_enum_iff a (j, p.2)).mpr hja)
  have hmne : m ≠ 0 := by
    intro hc
    rw [hc, hp] at hm
    have h3 : p.1 = j := congrArg Prod.fst (Option.some.inj hm)
    omega
  have hrel := sortedPairs_rel a 0 m p (j, p.2) (by omega) hp hm
  rcases (show p.2 < (j, p.2).2 ∨ (p.2 = (j, p.2).2 ∧ p.1 ≤ (j, p.2).1)
      from hrel) with h | ⟨h1, h2⟩
  · exact lt_irrefl p.2 h
  · have h2a : p.1 ≤ j := h2
    omega

theorem sorted_adjR_eq_iff_hasLater (a : List α) (k : Nat) (p q : Nat × α)
    (hp : (List.insertionSort argsortKey a.enum)[k]? = some p)
    (hq : (List.insertionSort argsortKey a.enum)[k + 1]? = some q) :
    (q.2 = p.2) ↔ hasLaterB a p.1 = true := by
  have hpa : a[p.1]? = some p.2 :=
    (mem_sort_enum_iff a p).mp (List.mem_iff_getElem?.mpr ⟨k, hp⟩)
  have hqa : a[q.1]? = some q.2 :=
    (mem_sort_enum_iff a q).mp (List.mem_iff_getElem?.mpr ⟨k + 1, hq⟩)
  constructor
  · intro he
    rw [hasLaterB_iff]
    have hrel : argsortKey p q := sortedPairs_rel a k (k + 1) p q (by omega) hp hq
    have hne : p ≠ q := by
      intro hc
      subst hc
      have hinj : k = k + 1 :=
        List.getElem?_inj (List.getElem?_eq_some.mp hp).1 (sort_enum_nodup a)
          (hp.trans hq.symm)
      omega
    have hfst : p.1 < q.1 := by
      rcases (show p.2 < q.2 ∨ (p.2 = q.2 ∧ p.1 ≤ q.1) from hrel) with h | ⟨h1, h2⟩
      · rw [he] at h
        exact absurd h (lt_irrefl _)
      · have hne1 : p.1 ≠ q.1 := by
          intro hc
          exact hne (Prod.ext hc h1)
        omega
    have hq1len : q.1 < a.length := by
      have := (List.getElem?_eq_some.mp hqa).1
      omega
    refine ⟨q.1, hfst, hq1len, ?_⟩
    rw [hqa, hpa, he]
  · intro hL
    obtain ⟨j, hij, hjn, hje⟩ := (hasLaterB_iff a p.1).mp hL
    have hja : a[j]? = some p.2 := by
      rw [hje, hpa]
    obtain ⟨m, hm⟩ :=
      List.mem_iff_getElem?.mp ((mem_sort_enum_iff a (j, p.2)).mpr hja)
    have hmne : m ≠ k := by
      intro hc
      rw [hc, hp] at hm
      have h3 : p.1 = j := congrArg Prod.fst (Option.some.inj hm)
      omega
    have hmgt : k < m := by
      by_contra hcon
      have hmk : m < k := by omega
      have hrel := sortedPairs_rel a m k (j, p.2) p hmk hm hp
      rcases (show (j, p.2).2 < p.2 ∨ ((j, p.2).2 = p.2 ∧ (j, p.2).1 ≤ p.1)
          from hrel) with h | ⟨h1, h2⟩
      · exact lt_irrefl p.2 h
      · have h2a : j ≤ p.1 := h2
        omega
    rcases Nat.lt_or_ge (k + 1) m with hmk | hmk
    · have hrel1 := sortedPairs_rel a k (k + 1) p q (by omega) hp hq
      have hrel2 := sortedPairs_rel a (k + 1) m q (j, p.2) hmk hq hm
      have hle1 : p.2 ≤ q.2 := by
        rcases (show p.2 < q.2 ∨ (p.2 = q.2 ∧ p.1 ≤ q.1) from hrel1)
            with h | ⟨h1, _⟩
        · exact le_of_lt h
        · exact le_of_eq h1
      have hle2 : q.2 ≤ p.2 := by
        rcases (show q.2 < (j, p.2).2 ∨ (q.2 = (j, p.2).2 ∧ q.1 ≤ (j, p.2).1)
            from hrel2) with h | ⟨h1, _⟩
        · exact le_of_lt h
        · exact le_of_eq h1
      exact le_antisymm hle2 hle1
    · have hmeq : m = k + 1 := by omega
      subst hmeq
      rw [hq] at hm
      have h4 : q = (j, p.2) := Option.some.inj hm
      rw [h4]

theorem sorted_last_noLater (a : List α) (k : Nat) (p : Nat × α)
    (hp : (List.insertionSort argsortKey a.enum)[k]? = some p)
    (hnone : (List.insertionSort argsortKey a.enum)[k + 1]? = none) :
    hasLaterB a p.1 = false := by
  rw [hasLaterB_eq_false_iff]
  intro j hij hjn hje
  have hpa : a[p.1]? = some p.2 :=
    (mem_sort_enum_iff a p).mp (List.mem_iff_getElem?.mpr ⟨k, hp⟩)
  have hja : a[j]? = some p.2 := by
    rw [hje, hpa]
  obtain ⟨m, hm⟩ :=
    List.mem_iff_getElem?.mp ((mem_sort_enum_iff a (j, p.2)).mpr hja)
  have hmlen : m < (List.insertionSort argsortKey a.enum).length :=
    (List.getElem?_eq_some.mp hm).1
  have hk1 : (List.insertionSort argsortKey a.enum).length ≤ k + 1 :=
    List.getElem?_eq_none_iff.mp hnone
  have hmne : m ≠ k := by
    intro hc
    rw [hc, hp] at hm
    have h3 : p.1 = j := congrArg Prod.fst (Option.some.inj hm)
    omega
  have hmk : m < k := by omega
  have hrel := sortedPairs_rel a m k (j, p.2) p hmk hm hp
  rcases (show (j, p.2).2 < p.2 ∨ ((j, p.2).2 = p.2 ∧ (j, p.2).1 ≤ p.1)
      from hrel) with h | ⟨h1, h2⟩
  · exact lt_irrefl p.2 h
  · have h2a : j ≤ p.1 := h2
    omega

end SortLemmas

section UnsortLemmas

variable {α : Type} [LinearOrder α]

theorem rIdx_spec (a : List α) (i : Nat) (hi : i < a.length) :
    ∃ k p, ((List.insertionSort argsortKey
        (((List.insertionSort argsortKey a.enum).map Prod.fst).enum)).map
        Prod.fst)[i]? = some k
      ∧ (List.insertionSort argsortKey a.enum)[k]? = some p ∧ p.1 = i := by
  set sp := List.insertionSort argsortKey a.enum with hsp
  set oidx := sp.map Prod.fst with hoidx
  set sp2 := List.insertionSort argsortKey oidx.enum with hsp2
  have hsp2perm : List.Perm sp2 oidx.enum := List.perm_insertionSort _ _
  have hmapsnd : sp2.map Prod.snd = List.range a.length := by
    have hperm2 : List.Perm (sp2.map Prod.snd) (List.range a.length) := by
      have h1 : List.Perm (sp2.map Prod.snd) oidx := by
        have h0 := hsp2perm.map Prod.snd
        rwa [List.enum_map_snd] at h0
      have h2 : List.Perm oidx (List.range a.length) := by
        have h0 := (List.perm_insertionSort argsortKey a.enum).map Prod.fst
        rwa [List.enum_map_fst] at h0
      exact h1.trans h2
    have hs1 : List.Sorted (· ≤ ·) (sp2.map Prod.snd) := by
      apply List.Pairwise.map
      · intro p q h
        rcases (show p.2 < q.2 ∨ (p.2 = q.2 ∧ p.1 ≤ q.1) from h) with h | ⟨h1, _⟩
        · exact le_of_lt h
        · exact le_of_eq h1
      · exact List.sorted_insertionSort argsortKey oidx.enum
    have hs2 : List.Sorted (· ≤ ·) (List.range a.length) :=
      (List.pairwise_lt_range a.length).imp le_of_lt
    exact List.eq_of_perm_of_sorted hperm2 hs1 hs2
  have hlen_sp2 : sp2.length = a.length := by
    have h0 : (sp2.map Prod.snd).length = (List.range a.length).length := by
      rw [hmapsnd]
    simpa using h0
  obtain ⟨q, hq⟩ : ∃ q, sp2[i]? = some q := by
    rw [List.getElem?_eq_getElem (by omega)]
    exact ⟨_, rfl⟩
  have hq2 : q.2 = i := by
    have h1 : (sp2.map Prod.snd)[i]? = some q.2 := by
      rw [List.getElem?_map, hq]
      rfl
    rw [hmapsnd, List.getElem?_range hi] at h1
    exact (Option.some.inj h1).symm
  have hq_mem : q ∈ oidx.enum :=
    (hsp2perm.mem_iff).mp (List.mem_iff_getElem?.mpr ⟨i, hq⟩)
  have hoq : oidx[q.1]? = some q.2 := (mem_enum_iff oidx q).mp hq_mem
  obtain ⟨p, hp⟩ : ∃ p, sp[q.1]? = some p := by
    have hlt : q.1 < sp.length := by
      have h3 := (List.getElem?_eq_some.mp hoq).1
      simpa [hoidx] using h3
    rw [List.getElem?_eq_getElem hlt]
    exact ⟨_, rfl⟩
  have hp1 : p.1 = i := by
    have h4 : oidx[q.1]? = some p.1 := by
      rw [hoidx, List.getElem?_map, hp]
      rfl
    rw [hoq] at h4
    rw [← hq2]
    exact (Option.some.inj h4).symm
  refine ⟨q.1, p, ?_, hp, hp1⟩
  rw [List.getElem?_map, hq]
  rfl

theorem unsort_map (a : List α) (D : List Bool) (g : Nat → Bool)
    (hDlen : D.length = a.length)
    (hD : ∀ (k : Nat) (p : Nat × α),
      (List.insertionSort argsortKey a.enum)[k]? = some p →
      D[k]? = some (g p.1)) :
    (((List.insertionSort argsortKey
        (((List.insertionSort argsortKey a.enum).map Prod.fst).enum)).map
        Prod.fst).map (fun k => D.getD k false))
      = (List.range a.length).map g := by
  apply List.ext_getElem?
  intro i
  by_cases hi : i < a.length
  · obtain ⟨k, p, hr, hp, hp1⟩ := rIdx_spec a i hi
    rw [List.getElem?_map, hr, List.getElem?_map, List.getElem?_range hi]
    show some (D.getD k false) = some (g i)
    rw [List.getD_eq_getElem?_getD, hD k p hp, hp1]
    rfl
  · rw [List.getElem?_eq_none, List.getElem?_eq_none]
    all_goals
      simp [List.length_insertionSort, List.enum_length, sort_enum_length]
      omega

theorem sortable_eq_spec (a : List α) (ef el : Bool) :
    _array_to_duplicated_sortable a ef el = dupSpecList a ef el := by
  unfold _array_to_duplicated_sortable
  dsimp only
  rw [show (fun (p : Nat × α) => p.2) = (Prod.snd : Nat × α → α) from rfl]
  rw [show (fun (p : Nat × α) => p.1) = (Prod.fst : Nat × α → Nat) from rfl]
  rw [show (fun (p : Nat × Nat) => p.1) = (Prod.fst : Nat × Nat → Nat) from rfl]
  set sp := List.insertionSort argsortKey a.enum with hspdef
  set S := List.map Prod.snd sp with hSdef
  set Z := List.zipWith (fun x y => decide (x = y)) S (roll_1d S 1) with hZdef
  set F := Z.set 0 false with hFdef
  have hlen_sp : sp.length = a.length := sort_enum_length a
  have hlenS : S.length = a.length := by
    rw [hSdef]
    simp [hlen_sp]
  have hlenZ : Z.length = a.length := by
    rw [hZdef, List.length_zipWith, roll_1d_length]
    omega
  have hlenF : F.length = a.length := by
    rw [hFdef, List.length_set]
    exact hlenZ
  have hS_at : ∀ (k : Nat) (p : Nat × α), sp[k]? = some p →
      S[k]? = some p.2 := by
    intro k p h
    rw [hSdef, List.getElem?_map, h]
    rfl
  have hsp_at : ∀ k, k < a.length → ∃ p, sp[k]? = some p := by
    intro k hk
    rw [List.getElem?_eq_getElem (by omega)]
    exact ⟨_, rfl⟩
  have hF_at : ∀ (k : Nat) (p : Nat × α), sp[k]? = some p →
      F[k]? = some (hasEarlierB a p.1) := by
    intro k p hk
    have hklen : k < sp.length := (List.getElem?_eq_some.mp hk).1
    by_cases hk0 : k = 0
    · subst hk0
      rw [hFdef, List.getElem?_set, if_pos rfl, if_pos (by omega),
        sorted_head_noEarlier a p hk]
    · obtain ⟨q, hq⟩ := hsp_at (k - 1) (by omega)
      have hSq : S[k - 1]? = some q.2 := hS_at _ _ hq
      have hSp : S[k]? = some p.2 := hS_at _ _ hk
      have h2le : 2 ≤ S.length := by omega
      have hroll : (roll_1d S 1)[k]? = some q.2 := by
        rw [roll_1d_one_getElem S k h2le (by omega), if_neg hk0]
        exact hSq
      have hzip : Z[k]? = some (decide (p.2 = q.2)) := by
        rw [hZdef]
        exact getElem?_zipWith_of_some _ _ _ _ _ _ hSp hroll
      rw [hFdef, List.getElem?_set, if_neg (fun hc => hk0 hc.symm), hzip]
      have hiff := sorted_adj_eq_iff_hasEarlier a (k - 1) p q hq
        (by rw [show k - 1 + 1 = k from by omega]; exact hk)
      cases hE : hasEarlierB a p.1
      · have hne : ¬ p.2 = q.2 := by
          intro hc
          have h5 := hiff.mp hc
          rw [hE] at h5
          exact Bool.noConfusion h5
        rw [decide_eq_false hne]
      · rw [decide_eq_true (hiff.mpr hE)]
  have hL_at : ∀ (k : Nat) (p : Nat × α), sp[k]? = some p →
      (roll_1d F (-1))[k]? = some (hasLaterB a p.1) := by
    intro k p hk
    have hklen : k < sp.length := (List.getElem?_eq_some.mp hk).1
    by_cases hkl : k = a.length - 1
    · have hF0 : F[0]? = some false := by
        rw [hFdef, List.getElem?_set, if_pos rfl, if_pos (by omega)]
      have hnone : sp[k + 1]? = none := List.getElem?_eq_none (by omega)
      have hnoL := sorted_last_noLater a k p hk hnone
      by_cases h1 : a.length ≤ 1
      · have hroll_eq : roll_1d F (-1) = F := by
          unfold roll_1d
          rw [if_pos (by omega : F.length ≤ 1)]
        have hk00 : k = 0 := by omega
        rw [hroll_eq, hk00, hF0, hnoL]
      · rw [roll_1d_neg_one_getElem F k (by omega) (by omega),
          if_pos (by omega), hF0, hnoL]
    · obtain ⟨q, hq⟩ := hsp_at (k + 1) (by omega)
      have hSq : S[k + 1]? = some q.2 := hS_at _ _ hq
      have hSp : S[k]? = some p.2 := hS_at _ _ hk
      have h2le : 2 ≤ S.length := by omega
      have hroll1 : (roll_1d S 1)[k + 1]? = some p.2 := by
        rw [roll_1d_one_getElem S (k + 1) h2le (by omega),
          if_neg (Nat.succ_ne_zero k), Nat.add_sub_cancel]
        exact hSp
      have hzip : Z[k + 1]? = some (decide (q.2 = p.2)) := by
        rw [hZdef]
        exact getElem?_zipWith_of_some _ _ _ _ _ _ hSq hroll1
      have hFk1 : F[k + 1]? = some (decide (q.2 = p.2)) := by
        rw [hFdef, List.getElem?_set, if_neg (by omega), hzip]
      rw [roll_1d_neg_one_getElem F k (by omega) (by omega),
        if_neg (by omega), hFk1]
      have hiff := sorted_adjR_eq_iff_hasLater a k p q hk hq
      cases hL : hasLaterB a p.1
      · have hne : ¬ q.2 = p.2 := by
          intro hc
          have h5 := hiff.mp hc
          rw [hL] at h5
          exact Bool.noConfusion h5
        rw [decide_eq_false hne]
      · rw [decide_eq_true (hiff.mpr hL)]
  by_cases hany : Z.any id = true
  · rw [if_neg (not_not_intro hany)]
    have hlenRoll : (roll_1d F (-1)).length = a.length := by
      rw [roll_1d_length]
      exact hlenF
    cases ef <;> cases el <;>
      simp only [Bool.false_eq_true, Bool.true_eq_false, eq_self_iff_true,
        not_false_eq_true, not_true_eq_false, false_and, true_and, and_false,
        and_true, if_true, if_false, ite_true, ite_false, not_false_iff]
    · refine (unsort_map a (List.zipWith or F (roll_1d F (-1)))
        (fun i => or (hasEarlierB a i) (hasLaterB a i)) ?_ ?_).trans ?_
      · rw [List.length_zipWith, roll_1d_length]
        omega
      · intro k p hk
        exact getElem?_zipWith_of_some or F (roll_1d F (-1)) k _ _
          (hF_at k p hk) (hL_at k p hk)
      · simp [dupSpecList]
    · refine (unsort_map a (roll_1d F (-1))
        (fun i => hasLaterB a i) hlenRoll ?_).trans ?_
      · intro k p hk
        exact hL_at k p hk
      · simp [dupSpecList]
    · refine (unsort_map a F (fun i => hasEarlierB a i) hlenF ?_).trans ?_
      · intro k p hk
        exact hF_at k p hk
      · simp [dupSpecList]
    · refine (unsort_map a (List.zipWith and F (roll_1d F (-1)))
        (fun i => and (hasEarlierB a i) (hasLaterB a i)) ?_ ?_).trans ?_
      · rw [List.length_zipWith, roll_1d_length]
        omega
      · intro k p hk
        exact getElem?_zipWith_of_some and F (roll_1d F (-1)) k _ _
          (hF_at k p hk) (hL_at k p hk)
      · simp [dupSpecList]
  · rw [if_pos hany]
    have hnoE : ∀ i, i < a.length → hasEarlierB a i = false := by
      intro i hi
      cases hc : hasEarlierB a i
      · rfl
      · exfalso
        obtain ⟨x, hx⟩ : ∃ x, a[i]? = some x := by
          rw [List.getElem?_eq_getElem hi]
          exact ⟨_, rfl⟩
        obtain ⟨k, hk⟩ :=
          List.mem_iff_getElem?.mp ((mem_sort_enum_iff a (i, x)).mpr hx)
        have hFk := hF_at k (i, x) hk
        have hk0 : k ≠ 0 := by
          intro hc0
          subst hc0
          have hhead2 : hasEarlierB a i = false := sorted_head_noEarlier a (i, x) hk
          rw [hc] at hhead2
          exact Bool.noConfusion hhead2
        have hFk2 : F[k]? = some true := hFk.trans (congrArg some hc)
        have hZk : Z[k]? = some true := by
          rw [hFdef, List.getElem?_set, if_neg (fun hcc => hk0 hcc.symm)] at hFk2
          exact hFk2
        have hZany : Z.any id = true := by
          rw [List.any_eq_true]
          exact ⟨true, List.mem_iff_getElem?.mpr ⟨k, hZk⟩, rfl⟩
        exact hany hZany
    have hnoL : ∀ i, hasLaterB a i = false := noEarlier_noLater a hnoE
    apply List.ext_getElem?
    intro i
    by_cases hi : i < a.length
    · rw [List.getElem?_replicate, if_pos (by omega : i < Z.length)]
      cases ef <;> cases el <;>
        simp [dupSpecList, List.getElem?_range, hi, hnoE i hi, hnoL i]
    · rw [List.getElem?_eq_none (by simp; omega),
        List.getElem?_eq_none (by simp [dupSpecList]; omega)]

end UnsortLemmas

--------------------------------------------------------------------------
-- Claim C6: the two duplicate-detection paths agree
--------------------------------------------------------------------------

theorem decide_inst_irrel {p : Prop} (i1 i2 : Decidable p) :
    @decide p i1 = @decide p i2 := by
  cases i1 with
  | isTrue h1 =>
    cases i2 with
    | isTrue h2 => rfl
    | isFalse h2 => exact absurd h1 h2
  | isFalse h1 =>
    cases i2 with
    | isTrue h2 => exact absurd h2 h1
    | isFalse h2 => rfl

theorem hasEarlierB_inst_irrel {α : Type} (i1 i2 : DecidableEq α)
    (a : List α) (i : Nat) :
    @hasEarlierB α i1 a i = @hasEarlierB α i2 a i := by
  unfold hasEarlierB
  congr 1
  funext j
  exact decide_inst_irrel _ _

theorem hasLaterB_inst_irrel {α : Type} (i1 i2 : DecidableEq α)
    (a : List α) (i : Nat) :
    @hasLaterB α i1 a i = @hasLaterB α i2 a i := by
  unfold hasLaterB
  congr 1
  funext j
  exact decide_inst_irrel _ _

theorem dupSpecList_inst_irrel {α : Type} (i1 i2 : DecidableEq α)
    (a : List α) (ef el : Bool) :
    @dupSpecList α i1 a ef el = @dupSpecList α i2 a ef el := by
  unfold dupSpecList
  congr 1
  funext i
  rw [hasEarlierB_inst_irrel i1 i2, hasLaterB_inst_irrel i1 i2]

theorem zipWith_congr_mem {β γ δ : Type} (f g : β → γ → δ)
    (l1 : List β) (l2 : List γ)
    (h : ∀ a ∈ l1, ∀ b ∈ l2, f a b = g a b) :
    List.zipWith f l1 l2 = List.zipWith g l1 l2 := by
  induction l1 generalizing l2 with
  | nil => simp
  | cons x xs ih =>
    cases l2 with
    | nil => simp
    | cons y ys =>
      rw [List.zipWith_cons_cons, List.zipWith_cons_cons,
        h x (List.mem_cons_self x xs) y (List.mem_cons_self y ys),
        ih ys (fun a ha b hb =>
          h a (List.mem_cons_of_mem x ha) b (List.mem_cons_of_mem y hb))]

theorem rowsEqB_eq_decide {α : Type} [DecidableEq α] (r1 r2 : List α)
    (h : r1.length = r2.length) : rowsEqB r1 r2 = decide (r1 = r2) := by
  induction r1 generalizing r2 with
  | nil =>
    cases r2 with
    | nil => rfl
    | cons y ys => simp at h
  | cons x xs ih =>
    cases r2 with
    | nil => simp at h
    | cons y ys =>
      have h2 : xs.length = ys.length := by simpa using h
      have hstep : rowsEqB (x :: xs) (y :: ys)
          = (decide (x = y) && rowsEqB xs ys) := by
        simp [rowsEqB, List.zipWith_cons_cons, List.all_cons]
      rw [hstep, ih ys h2]
      by_cases hxy : x = y
      · subst hxy
        simp
      · simp [hxy]

theorem mem_roll_1d {β : Type} (l : List β) (s : Int) (y : β)
    (h : y ∈ roll_1d l s) : y ∈ l := by
  simp only [roll_1d] at h
  split_ifs at h
  · exact h
  · exact h
  · rcases List.mem_append.mp h with h3 | h3
    · exact List.mem_of_mem_drop h3
    · exact List.mem_of_mem_take h3

theorem arrColumn_length {α : Type} (m : List (List α)) (cols i : Nat)
    (hrect : ∀ row ∈ m, row.length = cols) (hi : i < cols) :
    (arrColumn m i).length = m.length := by
  induction m with
  | nil => rfl
  | cons r rest ih =>
    have hr : r.length = cols := hrect r (List.mem_cons_self r rest)
    have hri : i < r.length := by omega
    unfold arrColumn
    simp only [List.filterMap_cons, List.getElem?_eq_getElem hri]
    have hrec := ih (fun row hrow => hrect row (List.mem_cons_of_mem r hrow))
    unfold arrColumn at hrec
    simp [hrec]

/-- In the admissible axis cases, the 2-D sortable path is the generic
sorted-duplicates computation applied to the axis-selected slice list:
with all slices the same length (a rectangular array), the per-slice
`match.all` equality coincides with decidable slice equality. -/
theorem sortable_2d_eq_1d {α : Type} [LinearOrder α]
    (m : List (List α)) (cols axis L : Nat) (ef el : Bool)
    (haxis : axis = 0 ∨ axis = 1)
    (hvs : ∀ r ∈ (if axis = 0 then m else (List.range cols).map (arrColumn m)),
      r.length = L) :
    _array_to_duplicated_sortable_2d m cols axis ef el
      = .ok (_array_to_duplicated_sortable
          (if axis = 0 then m else (List.range cols).map (arrColumn m))
          ef el) := by
  unfold _array_to_duplicated_sortable_2d _array_to_duplicated_sortable
  rw [if_pos haxis]
  dsimp only
  set vs := (if axis = 0 then m else (List.range cols).map (arrColumn m))
    with hvsdef
  set S := List.map Prod.snd (List.insertionSort argsortKey vs.enum) with hSdef
  have hmemS : ∀ r ∈ S, r.length = L := by
    intro r hr
    rw [hSdef] at hr
    obtain ⟨p, hp, hp2⟩ := List.mem_map.mp hr
    have hpm : p ∈ vs.enum :=
      (List.perm_insertionSort argsortKey vs.enum).mem_iff.mp hp
    have hpv := (mem_enum_iff vs p).mp hpm
    rw [← hp2]
    exact hvs p.2 (List.mem_iff_getElem?.mpr ⟨p.1, hpv⟩)
  have hzip : List.zipWith rowsEqB S (roll_1d S 1)
      = List.zipWith
        (fun (x y : List α) =>
          @decide (x = y) (@instDecidableEq_mathlib (List α) inferInstance x y))
        S (roll_1d S 1) := by
    apply zipWith_congr_mem
    intro a ha b hb
    exact (rowsEqB_eq_decide a b
      (by rw [hmemS a ha, hmemS b (mem_roll_1d S 1 b hb)])).trans
      (decide_inst_irrel _ _)
  rw [hzip]

/-- The spliced list built for a positive shift has the original length. -/
theorem splice_pos_length {β : Type} (l : List β) (fillv : β) (sh : Nat) :
    (List.replicate (min sh l.length) fillv ++ l.take (l.length - sh)).length
      = l.length := by
  simp [List.length_append, List.length_take]
  omega

/-- Element view of the positive-shift splice: the first `sh` positions hold
the fill, the rest the original values displaced right by `sh`. -/
theorem splice_pos_getElem {β : Type} (l : List β) (fillv : β) (sh : Nat)
    (i : Nat) (hi : i < l.length) :
    (List.replicate (min sh l.length) fillv ++ l.take (l.length - sh))[i]?
      = if i < sh then some fillv else l[i - sh]? := by
  rw [List.getElem?_append]
  simp only [List.length_replicate]
  by_cases h : i < min sh l.length
  · rw [if_pos h, List.getElem?_replicate, if_pos h, if_pos (by omega)]
  · have hsh : sh ≤ l.length := by omega
    have hmin : min sh l.length = sh := by omega
    rw [if_neg h, List.getElem?_take, hmin, if_pos (by omega), if_neg (by omega)]

/-- The spliced list built for a negative shift has the original length. -/
theorem splice_neg_length {β : Type} (l : List β) (fillv : β) (sh : Nat) :
    (l.drop sh ++ List.replicate (min sh l.length) fillv).length = l.length := by
  simp [List.length_append, List.length_drop]
  omega

/-- Element view of the negative-shift splice: the last `sh` positions hold
the fill, the rest the original values displaced left by `sh`. -/
theorem splice_neg_getElem {β : Type} (l : List β) (fillv : β) (sh : Nat)
    (i : Nat) (hi : i < l.length) :
    (l.drop sh ++ List.replicate (min sh l.length) fillv)[i]?
      = if l.length - sh ≤ i then some fillv else l[sh + i]? := by
  rw [List.getElem?_append]
  simp only [List.length_drop]
  by_cases h : i < l.length - sh
  · rw [if_pos h, List.getElem?_drop, if_neg (by omega)]
  · rw [if_neg h, List.getElem?_replicate, if_pos (by omega), if_pos (by omega)]

/-- `np.array(scalar).dtype` is never void-kind. -/
theorem npScalarDtype_nonvoid (v : Val) : (npScalarDtype v).kind ≠ NpKind.V := by
  cases v <;> simp [npScalarDtype, Dtype.kind] <;> split_ifs <;> simp [Dtype.kind]

/-- 1-D `array_shift` with `wrap=False`: for a nonempty non-void array and
nonzero shift, the result dtype is `resolve_dtype` of the array dtype and
the fill's dtype, vacated positions hold the fill and the others the
displaced originals. -/
theorem array_shift_1d_spec (a : Arr1) (shift : Int) (fill : Val)
    (hv : a.dtype.kind ≠ NpKind.V) (hs : shift ≠ 0) (hn : 0 < a.data.length) :
    ∃ d, resolve_dtype a.dtype (npScalarDtype fill) = .ok d
      ∧ ∃ r, array_shift_1d a shift false fill = .ok ⟨d, r⟩
        ∧ r.length = a.data.length
        ∧ ∀ i, i < a.data.length →
            r[i]? = if (0 < shift ∧ (i : Int) < shift)
                ∨ (shift < 0 ∧ (a.data.length : Int) + shift ≤ (i : Int)) then
                some fill
              else a.data[((i : Int) - shift).toNat]? := by
  obtain ⟨d, hd⟩ := resolve_dtype_ok_of_nonvoid a.dtype (npScalarDtype fill)
    (Or.inr ⟨hv, npScalarDtype_nonvoid fill⟩)
  refine ⟨d, hd, ?_⟩
  have hn0 : ¬ a.data.length = 0 := by omega
  rcases lt_or_gt_of_ne hs with hneg | hpos
  · -- negative shift
    have hshc : ((-shift).toNat : Int) = -shift := by omega
    refine ⟨a.data.drop (-shift).toNat
      ++ List.replicate (min (-shift).toNat a.data.length) fill, ?_, ?_, ?_⟩
    · simp [array_shift_1d, array_shift_mod, full_for_fill_1d, hd, hs, hn0,
        not_lt_of_gt hneg, hneg]
    · exact splice_neg_length _ _ _
    · intro i hi
      rw [splice_neg_getElem _ _ _ i hi]
      by_cases hc : a.data.length - (-shift).toNat ≤ i
      · rw [if_pos hc, if_pos (by omega)]
      · rw [if_neg hc, if_neg (by omega)]
        congr 1
        omega
  · -- positive shift
    have hshc : (shift.toNat : Int) = shift := by omega
    refine ⟨List.replicate (min shift.toNat a.data.length) fill
      ++ a.data.take (a.data.length - shift.toNat), ?_, ?_, ?_⟩
    · simp [array_shift_1d, array_shift_mod, full_for_fill_1d, hd, hs, hn0, hpos]
    · exact splice_pos_length _ _ _
    · intro i hi
      rw [splice_pos_getElem _ _ _ i hi]
      by_cases hc : i < shift.toNat
      · rw [if_pos hc, if_pos (by omega)]
      · rw [if_neg hc, if_neg (by omega)]
        congr 1
        omega

/-- 2-D `array_shift` with `wrap=False` along axis 0: vacated rows are full
fill rows, the others the displaced original rows. -/
theorem array_shift_2d_axis0_spec (a : Arr2) (shift : Int) (fill : Val)
    (hv : a.dtype.kind ≠ NpKind.V) (hs : shift ≠ 0) (hr : 0 < a.data.length) :
    ∃ d, resolve_dtype a.dtype (npScalarDtype fill) = .ok d
      ∧ ∃ r, array_shift_2d a shift 0 false fill = .ok ⟨d, r⟩
        ∧ r.length = a.data.length
        ∧ ∀ i, i < a.data.length →
            r[i]? = if (0 < shift ∧ (i : Int) < shift)
                ∨ (shift < 0 ∧ (a.data.length : Int) + shift ≤ (i : Int)) then
                some (List.replicate (a.data.headD []).length fill)
              else a.data[((i : Int) - shift).toNat]? := by
  obtain ⟨d, hd⟩ := resolve_dtype_ok_of_nonvoid a.dtype (npScalarDtype fill)
    (Or.inr ⟨hv, npScalarDtype_nonvoid fill⟩)
  refine ⟨d, hd, ?_⟩
  have hn0 : ¬ a.data.length = 0 := by omega
  rcases lt_or_gt_of_ne hs with hneg | hpos
  · refine ⟨a.data.drop (-shift).toNat
      ++ List.replicate (min (-shift).toNat a.data.length)
          (List.replicate (a.data.headD []).length fill), ?_, ?_, ?_⟩
    · simp [array_shift_2d, array_shift_mod, full_for_fill_2d, hd, hs, hn0,
        not_lt_of_gt hneg, hneg]
    · exact splice_neg_length _ _ _
    · intro i hi
      rw [splice_neg_getElem _ _ _ i hi]
      by_cases hc : a.data.length - (-shift).toNat ≤ i
      · rw [if_pos hc, if_pos (by omega)]
      · rw [if_neg hc, if_neg (by omega)]
        congr 1
        omega
  · refine ⟨List.replicate (min shift.toNat a.data.length)
        (List.replicate (a.data.headD []).length fill)
      ++ a.data.take (a.data.length - shift.toNat), ?_, ?_, ?_⟩
    · simp [array_shift_2d, array_shift_mod, full_for_fill_2d, hd, hs, hn0, hpos]
    · exact splice_pos_length _ _ _
    · intro i hi
      rw [splice_pos_getElem _ _ _ i hi]
      by_cases hc : i < shift.toNat
      · rw [if_pos hc, if_pos (by omega)]
      · rw [if_neg hc, if_neg (by omega)]
        congr 1
        omega

/-- 2-D `array_shift` with `wrap=False` along axis 1: within every row,
vacated positions hold the fill and the others the displaced originals. -/
theorem array_shift_2d_axis1_spec (a : Arr2) (shift : Int) (fill : Val)
    (hv : a.dtype.kind ≠ NpKind.V) (hs : shift ≠ 0)
    (hrect : ∀ row ∈ a.data, row.length = (a.data.headD []).length)
    (hc : 0 < (a.data.headD []).length) :
    ∃ d, resolve_dtype a.dtype (npScalarDtype fill) = .ok d
      ∧ ∃ r, array_shift_2d a shift 1 false fill = .ok ⟨d, r⟩
        ∧ r.length = a.data.length
        ∧ ∀ i, i < a.data.length → ∃ row arow,
            r[i]? = some row ∧ a.data[i]? = some arow
              ∧ row.length = arow.length
              ∧ ∀ j, j < arow.length →
                  row[j]? = if (0 < shift ∧ (j : Int) < shift)
                      ∨ (shift < 0 ∧ (arow.length : Int) + shift ≤ (j : Int)) then
                      some fill
                    else arow[((j : Int) - shift).toNat]? := by
  obtain ⟨d, hd⟩ := resolve_dtype_ok_of_nonvoid a.dtype (npScalarDtype fill)
    (Or.inr ⟨hv, npScalarDtype_nonvoid fill⟩)
  refine ⟨d, hd, ?_⟩
  have hc0 : ¬ (a.data.headD []).length = 0 := by omega
  have hch : ¬ a.data.head?.getD [] = [] := by
    intro hx
    rw [← List.headD_eq_head?_getD] at hx
    rw [hx] at hc0
    simp at hc0
  rcases lt_or_gt_of_ne hs with hneg | hpos
  · refine ⟨a.data.map (fun row => row.drop (-shift).toNat
      ++ List.replicate (min (-shift).toNat (a.data.headD []).length) fill), ?_, ?_, ?_⟩
    · simp [array_shift_2d, array_shift_mod, full_for_fill_2d, hd, hs, hc0, hch,
        not_lt_of_gt hneg, hneg]
    · simp
    · intro i hi
      have harow : ∃ arow, a.data[i]? = some arow :=
        ⟨a.data[i], List.getElem?_eq_getElem hi⟩
      obtain ⟨arow, harow⟩ := harow
      have hmem : arow ∈ a.data := List.getElem?_mem harow
      have hlen : arow.length = (a.data.headD []).length := hrect arow hmem
      refine ⟨arow.drop (-shift).toNat
          ++ List.replicate (min (-shift).toNat (a.data.headD []).length) fill,
        arow, ?_, harow, ?_, ?_⟩
      · rw [List.getElem?_map, harow]
        rfl
      · rw [← hlen]
        exact splice_neg_length _ _ _
      · intro j hj
        rw [← hlen, splice_neg_getElem _ _ _ j (by omega)]
        by_cases hcc : arow.length - (-shift).toNat ≤ j
        · rw [if_pos hcc, if_pos (by omega)]
        · rw [if_neg hcc, if_neg (by omega)]
          congr 1
          omega
  · refine ⟨a.data.map (fun row =>
        List.replicate (min shift.toNat (a.data.headD []).length) fill
        ++ row.take ((a.data.headD []).length - shift.toNat)), ?_, ?_, ?_⟩
    · simp [array_shift_2d, array_shift_mod, full_for_fill_2d, hd, hs, hc0, hch, hpos]
    · simp
    · intro i hi
      have harow : ∃ arow, a.data[i]? = some arow :=
        ⟨a.data[i], List.getElem?_eq_getElem hi⟩
      obtain ⟨arow, harow⟩ := harow
      have hmem : arow ∈ a.data := List.getElem?_mem harow
      have hlen : arow.length = (a.data.headD []).length := hrect arow hmem
      refine ⟨List.replicate (min shift.toNat (a.data.headD []).length) fill
          ++ arow.take ((a.data.headD []).length - shift.toNat),
        arow, ?_, harow, ?_, ?_⟩
      · rw [List.getElem?_map, harow]
        rfl
      · rw [← hlen]
        exact splice_pos_length _ _ _
      · intro j hj
        rw [← hlen, splice_pos_getElem _ _ _ j (by omega)]
        by_cases hcc : j < shift.toNat
        · rw [if_pos hcc, if_pos (by omega)]
        · rw [if_neg hcc, if_neg (by omega)]
          congr 1
          omega

/-- C7 counterexample: the claim quantifies over *every* array, but on an
empty array with a nonzero shift the code computes `shift %
array.shape[axis]` with a zero modulus, which raises `ZeroDivisionError`
instead of returning an array. -/
theorem c7_counterexample :
    array_shift_1d ⟨.int 8, []⟩ 1 false (.vInt 0) = .error .zeroDivisionError :=
  rfl

/-- C7 amended: for every non-void array that is *nonempty along the
shifted axis*, every valid axis, fill value and nonzero shift,
`array_shift` with `wrap=False` returns an array whose dtype is
`resolve_dtype` of the array's dtype and the fill's dtype; the vacated
positions hold the fill and all remaining positions the originals
displaced by the shift.  (An empty shifted axis raises
`ZeroDivisionError`.) -/
theorem c7_array_shift_fill :
    (∀ (a : Arr1) (shift : Int) (fill : Val),
      a.dtype.kind ≠ NpKind.V → shift ≠ 0 → 0 < a.data.length →
      ∃ d, resolve_dtype a.dtype (npScalarDtype fill) = .ok d
        ∧ ∃ r, array_shift_1d a shift false fill = .ok ⟨d, r⟩
          ∧ r.length = a.data.length
          ∧ ∀ i, i < a.data.length →
              r[i]? = if (0 < shift ∧ (i : Int) < shift)
                  ∨ (shift < 0 ∧ (a.data.length : Int) + shift ≤ (i : Int)) then
                  some fill
                else a.data[((i : Int) - shift).toNat]?)
    ∧ (∀ (a : Arr2) (shift : Int) (fill : Val),
      a.dtype.kind ≠ NpKind.V → shift ≠ 0 → 0 < a.data.length →
      ∃ d, resolve_dtype a.dtype (npScalarDtype fill) = .ok d
        ∧ ∃ r, array_shift_2d a shift 0 false fill = .ok ⟨d, r⟩
          ∧ r.length = a.data.length
          ∧ ∀ i, i < a.data.length →
              r[i]? = if (0 < shift ∧ (i : Int) < shift)
                  ∨ (shift < 0 ∧ (a.data.length : Int) + shift ≤ (i : Int)) then
                  some (List.replicate (a.data.headD []).length fill)
                else a.data[((i : Int) - shift).toNat]?)
    ∧ (∀ (a : Arr2) (shift : Int) (fill : Val),
      a.dtype.kind ≠ NpKind.V → shift ≠ 0 →
      (∀ row ∈ a.data, row.length = (a.data.headD []).length) →
      0 < (a.data.headD []).length →
      ∃ d, resolve_dtype a.dtype (npScalarDtype fill) = .ok d
        ∧ ∃ r, array_shift_2d a shift 1 false fill = .ok ⟨d, r⟩
          ∧ r.length = a.data.length
          ∧ ∀ i, i < a.data.length → ∃ row arow,
              r[i]? = some row ∧ a.data[i]? = some arow
                ∧ row.length = arow.length
                ∧ ∀ j, j < arow.length →
                    row[j]? = if (0 < shift ∧ (j : Int) < shift)
                        ∨ (shift < 0 ∧ (arow.length : Int) + shift ≤ (j : Int)) then
                        some fill
                      else arow[((j : Int) - shift).toNat]?) :=
  ⟨array_shift_1d_spec, array_shift_2d_axis0_spec, array_shift_2d_axis1_spec⟩

/-- C7 witness: the amended theorem applied to a concrete 1-D array with a
string fill (dtype resolves to object). -/
theorem c7_witness :
    ∃ d, resolve_dtype (Arr1.mk (.int 8) [.vInt 1, .vInt 2]).dtype
        (npScalarDtype (.vStr "x")) = .ok d
      ∧ ∃ r, array_shift_1d ⟨.int 8, [.vInt 1, .vInt 2]⟩ 1 false (.vStr "x")
            = .ok ⟨d, r⟩
        ∧ r.length = (Arr1.mk (.int 8) [.vInt 1, .vInt 2]).data.length
        ∧ ∀ i, i < (Arr1.mk (.int 8) [.vInt 1, .vInt 2]).data.length →
            r[i]? = if (0 < (1 : Int) ∧ (i : Int) < 1)
                ∨ ((1 : Int) < 0
                    ∧ ((Arr1.mk (.int 8) [.vInt 1, .vInt 2]).data.length : Int) + 1
                      ≤ (i : Int)) then
                some (.vStr "x")
              else (Arr1.mk (.int 8) [.vInt 1, .vInt 2]).data[((i : Int) - 1).toNat]? :=
  c7_array_shift_fill.1 ⟨.int 8, [.vInt 1, .vInt 2]⟩ 1 (.vStr "x")
    (by decide) (by decide) (by decide)

--------------------------------------------------------------------------
-- Claim C8: roll periodicity
--------------------------------------------------------------------------

/-- C8: `roll_1d(arr, shift) == roll_1d(arr, shift + len(arr))` for every
1-D array and every shift: the shift is normalized modulo the length. -/
theorem c8_roll_1d_periodic {α : Type} (array : List α) (shift : Int) :
    roll_1d array shift = roll_1d array (shift + array.length) := by
  unfold roll_1d
  by_cases h : array.length ≤ 1
  · simp [h]
  · have hn : (0 : Int) < (array.length : Int) := by
      omega
    have hmod : Int.fmod (shift + array.length) array.length
        = Int.fmod shift array.length := by
      rw [Int.fmod_eq_emod _ (le_of_lt hn), Int.fmod_eq_emod _ (le_of_lt hn),
        show shift + (array.length : Int) = shift + (array.length : Int) * 1 by ring]
      exact Int.add_mul_emod_self_left shift (array.length : Int) 1
    simp [h, hmod]
